import Mathlib

/-!
Verification development for the two-agent warehouse simulator
(`grid.py`, `pathfinder.py`, `agent.py`, `metrics.py`, `main.py`).

The Python sources are shallowly embedded below: positions are pairs of
integers, the A* search of `pathfinder.py` is modelled with an explicit
open list (Python's `heapq` pops the least tuple; all pushed entries are
pairwise distinct, so popping the leftmost minimum is faithful), Python
dicts are modelled as association lists with first-match lookup, and the
`while` loop is run on a fuel argument large enough to cover every
execution (the search space is finite; a sufficiency proof accompanies
the development).  Floating point arithmetic of the fatigue/experience
model is modelled over the reals.
-/

namespace Warehouse

/-- A grid cell position `(row, col)`, as in the Python `(row, col)` tuples. -/
abbrev Pos : Type := Int × Int

/-- Lexicographic strict order on positions, as Python compares int pairs. -/
def posLtb (a b : Pos) : Bool :=
  a.1 < b.1 || (a.1 == b.1 && a.2 < b.2)

/-- `pathfinder.heuristic`: Manhattan distance `|a0-b0| + |a1-b1|`. -/
def heuristic (a b : Pos) : Nat :=
  (a.1 - b.1).natAbs + (a.2 - b.2).natAbs

/-- One entry of the A* priority queue: `(f_score, steps_taken, position)`. -/
structure Entry where
  f : Nat
  steps : Nat
  pos : Pos
deriving DecidableEq, Repr

/-- Strict lexicographic order on queue entries, as Python compares the
`(f, steps, pos)` tuples stored in the heap. -/
def entryLtb (a b : Entry) : Bool :=
  a.f < b.f ||
    (a.f == b.f &&
      (a.steps < b.steps || (a.steps == b.steps && posLtb a.pos b.pos)))

/-- Pop the least element of the open list (leftmost among minima).
`heapq.heappop` returns the least entry under tuple comparison; the
entries pushed by the search are pairwise distinct, so this is faithful. -/
def popMin : List Entry → Option (Entry × List Entry)
  | [] => none
  | e :: es =>
    match popMin es with
    | none => some (e, [])
    | some (m, rest) => if entryLtb m e then some (m, e :: rest) else some (e, es)

/-- First-match lookup in an association list (Python dict read). -/
def slookup {α : Type} : List (Pos × α) → Pos → Option α
  | [], _ => none
  | (k, v) :: t, q => if k = q then some v else slookup t q

/-- The part of a grid object that `pathfinder.py` consumes: the
`is_walkable` test, together with the bounds that make it a finite search
space (`grid.is_walkable` is `False` outside `rows × cols`). -/
structure WalkMap where
  rows : Int
  cols : Int
  walkable : Pos → Bool
  bounded : ∀ p, walkable p = true → 0 ≤ p.1 ∧ p.1 < rows ∧ 0 ≤ p.2 ∧ p.2 < cols

/-- The mutable state of the A* loop in `find_path`:
the heap `open_set`, and the dicts `came_from` and `steps_to`. -/
structure AStarState where
  open_set : List Entry
  came_from : List (Pos × Pos)
  steps_to : List (Pos × Nat)

/-- The four neighbour offsets tried by the search, in source order
up, down, left, right. -/
def neighboursOf (p : Pos) : List Pos :=
  [(p.1 - 1, p.2), (p.1 + 1, p.2), (p.1, p.2 - 1), (p.1, p.2 + 1)]

/-- The body of the `for dr, dc in ...` loop of `find_path` for one
neighbour: skip non-walkable cells (unless the neighbour is the goal),
and on a strict improvement record `steps_to`/`came_from` and push. -/
def relaxNeighbour (w : WalkMap) (goal cur : Pos) (curSteps : Nat)
    (st : AStarState) (nb : Pos) : AStarState :=
  if nb ≠ goal ∧ w.walkable nb = false then st
  else
    let ns := curSteps + 1
    let improve :=
      match slookup st.steps_to nb with
      | none => true
      | some old => decide (ns < old)
    if improve then
      { open_set := ⟨ns + heuristic nb goal, ns, nb⟩ :: st.open_set
        came_from := (nb, cur) :: st.came_from
        steps_to := (nb, ns) :: st.steps_to }
    else st

/-- `pathfinder._build_path`, with the parent chain consumed front-first
(Python appends parents and reverses at the end; prepending builds the
same list).  The fuel `cf.length + 1` always suffices: the chain visits
pairwise distinct keys of `came_from`. -/
def buildPathAux : Nat → List (Pos × Pos) → Pos → List Pos → List Pos
  | 0, _, _, acc => acc
  | fuel + 1, cf, cur, acc =>
    match slookup cf cur with
    | none => acc
    | some par => buildPathAux fuel cf par (par :: acc)

/-- `pathfinder._build_path` traced from `cur`. -/
def buildPath (cf : List (Pos × Pos)) (cur : Pos) : List Pos :=
  buildPathAux (cf.length + 1) cf cur [cur]

/-- The `while open_set:` loop of `find_path`, driven by fuel. -/
def astarLoop (w : WalkMap) (goal : Pos) : Nat → AStarState → List Pos
  | 0, _ => []
  | fuel + 1, st =>
    match popMin st.open_set with
    | none => []
    | some (e, rest) =>
      if e.pos = goal then buildPath st.came_from e.pos
      else
        astarLoop w goal fuel
          ((neighboursOf e.pos).foldl (relaxNeighbour w goal e.pos e.steps)
            { st with open_set := rest })

/-- Fuel that provably dominates the loop's termination measure for a
`rows × cols` search space. -/
def astarFuel (w : WalkMap) : Nat :=
  5 * (w.rows.toNat * w.cols.toNat + 3) * (w.rows.toNat * w.cols.toNat + 3) + 10

/-- `pathfinder.find_path`: shortest walkable path from `start` to `goal`,
as the ordered cell list from `start` to `goal` inclusive, `[]` if no path
exists; the goal cell is exempt from the walkability check. -/
def find_path (w : WalkMap) (start goal : Pos) : List Pos :=
  if start = goal then [start]
  else
    astarLoop w goal (astarFuel w)
      { open_set := [⟨heuristic start goal, 0, start⟩]
        came_from := []
        steps_to := [(start, 0)] }

/-- `pathfinder.find_path_to_neighbour`: try the four cells adjacent to
`goal` that are walkable, in source order, and keep the shortest
non-empty path found (strict improvement, so the earliest minimum wins). -/
def find_path_to_neighbour (w : WalkMap) (start goal : Pos) : List Pos :=
  let neighbours := (neighboursOf goal).filter (fun n => w.walkable n)
  neighbours.foldl
    (fun best n =>
      let path := find_path w start n
      if path ≠ [] ∧ (best = [] ∨ path.length < best.length) then path else best)
    []

end Warehouse

namespace Warehouse

/-- The accumulator step of `find_path_to_neighbour`: keep the incoming
path when it is non-empty and strictly shorter than the best so far. -/
def keepShorter (best p : List Pos) : List Pos :=
  if p ≠ [] ∧ (best = [] ∨ p.length < best.length) then p else best

theorem find_path_to_neighbour_eq_fold (w : WalkMap) (start goal : Pos) :
    find_path_to_neighbour w start goal =
      (((neighboursOf goal).filter (fun n => w.walkable n)).map
        (find_path w start)).foldl keepShorter [] := by
  rw [find_path_to_neighbour, List.foldl_map]
  rfl

/-- Element `i` of a list of paths, defaulting to the empty path. -/
def nthD : List (List Pos) → Nat → List Pos
  | [], _ => []
  | p :: _, 0 => p
  | _ :: t, n + 1 => nthD t n

theorem nthD_mem (ps : List (List Pos)) (i : Nat) (h : i < ps.length) :
    nthD ps i ∈ ps := by
  induction ps generalizing i with
  | nil => simp at h
  | cons p t ih =>
    cases i with
    | zero => exact List.mem_cons_self _ _
    | succ n => exact List.mem_cons_of_mem _ (ih n (by simpa using h))

theorem nthD_append_lt (ps : List (List Pos)) (p : List Pos) (j : Nat)
    (h : j < ps.length) : nthD (ps ++ [p]) j = nthD ps j := by
  induction ps generalizing j with
  | nil => simp at h
  | cons q t ih =>
    cases j with
    | zero => rfl
    | succ n => exact ih n (by simpa using h)

theorem nthD_append_len (ps : List (List Pos)) (p : List Pos) :
    nthD (ps ++ [p]) ps.length = p := by
  induction ps with
  | nil => rfl
  | cons q t ih => exact ih

theorem nthD_ge (ps : List (List Pos)) (j : Nat) (h : ps.length ≤ j) :
    nthD ps j = [] := by
  induction ps generalizing j with
  | nil => rfl
  | cons q t ih =>
    cases j with
    | zero => simp at h
    | succ n => exact ih n (by simpa using h)

/-- Characterisation of the `keepShorter` fold: the result is `[]` iff all
candidates are `[]`, and otherwise it is the earliest candidate attaining
the minimum length among non-empty candidates. -/
theorem foldl_keepShorter_spec (ps : List (List Pos)) :
    (ps.foldl keepShorter [] = [] ∧ ∀ p ∈ ps, p = []) ∨
      (∃ i, i < ps.length ∧ ps.foldl keepShorter [] = nthD ps i ∧
        ps.foldl keepShorter [] ≠ [] ∧
        (∀ j, nthD ps j ≠ [] →
          (ps.foldl keepShorter []).length ≤ (nthD ps j).length) ∧
        (∀ j, j < i → nthD ps j ≠ [] →
          (ps.foldl keepShorter []).length < (nthD ps j).length)) := by
  induction ps using List.reverseRecOn with
  | nil => exact Or.inl ⟨rfl, by simp⟩
  | append_singleton ps p ih =>
    have hfold : (ps ++ [p]).foldl keepShorter [] =
        keepShorter (ps.foldl keepShorter []) p := by
      simp [List.foldl_append]
    rcases ih with ⟨hre, hall⟩ | ⟨i, hi, hri, hrne, hmin, hstrict⟩
    · by_cases hp : p = []
      · refine Or.inl ⟨?_, ?_⟩
        · rw [hfold, hre, hp]; rfl
        · intro q hq
          rcases List.mem_append.1 hq with h | h
          · exact hall q h
          · simpa [hp] using h
      · have hval0 : (ps ++ [p]).foldl keepShorter [] = p := by
          rw [hfold, hre]; simp [keepShorter, hp]
        refine Or.inr ⟨ps.length, by simp, ?_, ?_, ?_, ?_⟩
        · rw [hval0, nthD_append_len]
        · rw [hval0]; exact hp
        · intro j hj
          rcases lt_trichotomy j ps.length with h | h | h
          · exact absurd (nthD_append_lt ps p j h ▸ hall _ (nthD_mem ps j h)) hj
          · rw [hval0, h, nthD_append_len]
          · exact absurd (nthD_ge _ j (by simp; omega)) hj
        · intro j hj hjne
          have h1 : j < ps.length := by omega
          exact absurd (nthD_append_lt ps p j h1 ▸ hall _ (nthD_mem ps j h1)) hjne
    · by_cases hnew : p ≠ [] ∧ p.length < (ps.foldl keepShorter []).length
      · -- the new candidate strictly improves: it wins at index `ps.length`
        refine Or.inr ⟨ps.length, by simp, ?_, ?_, ?_, ?_⟩
        · rw [hfold, nthD_append_len]
          simp [keepShorter, hnew.1, hnew.2]
        · have hval : (ps ++ [p]).foldl keepShorter [] = p := by
            rw [hfold]; simp [keepShorter, hnew.1, hnew.2]
          rw [hval]; exact hnew.1
        · intro j hj
          have hval : (ps ++ [p]).foldl keepShorter [] = p := by
            rw [hfold]; simp [keepShorter, hnew.1, hnew.2]
          rw [hval]
          rcases lt_trichotomy j ps.length with h | h | h
          · rw [nthD_append_lt ps p j h] at hj ⊢
            exact le_of_lt (lt_of_lt_of_le hnew.2 (hmin j hj))
          · rw [h, nthD_append_len]
          · exact absurd (nthD_ge _ j (by simp; omega)) hj
        · intro j hj hjne
          have h1 : j < ps.length := by omega
          have hval : (ps ++ [p]).foldl keepShorter [] = p := by
            rw [hfold]; simp [keepShorter, hnew.1, hnew.2]
          rw [nthD_append_lt ps p j h1] at hjne
          rw [hval, nthD_append_lt ps p j h1]
          exact lt_of_lt_of_le hnew.2 (hmin j hjne)
      · -- the previous best survives
        have hval : (ps ++ [p]).foldl keepShorter [] = ps.foldl keepShorter [] := by
          rw [hfold]
          rcases Classical.em (p = []) with h | h
          · simp [keepShorter, h]
          · have : ¬ p.length < (ps.foldl keepShorter []).length := by
              intro hc; exact hnew ⟨h, hc⟩
            simp [keepShorter, h, hrne, this]
        refine Or.inr ⟨i, by simp; omega, ?_, ?_, ?_, ?_⟩
        · rw [hval, hri, nthD_append_lt ps p i hi]
        · rw [hval]; exact hrne
        · intro j hj
          rw [hval]
          rcases lt_trichotomy j ps.length with h | h | h
          · rw [nthD_append_lt ps p j h] at hj ⊢
            exact hmin j hj
          · rw [h, nthD_append_len] at hj ⊢
            by_contra hc
            exact hnew ⟨hj, by omega⟩
          · exact absurd (nthD_ge _ j (by simp; omega)) hj
        · intro j hj hjne
          have h1 : j < ps.length := by omega
          rw [nthD_append_lt ps p j h1] at hjne
          rw [hval, nthD_append_lt ps p j h1]
          exact hstrict j hj hjne

/-- C3: `shortest_path_to_adjacent` (`find_path_to_neighbour`) returns, among
the `shortest_path` results to the walkable orthogonal neighbours of the goal
(in source order up, down, left, right), the earliest one attaining the
minimum length over the non-empty results; it returns `[]` exactly when every
neighbour's path is empty (no reachable walkable neighbour). -/
theorem C3_shortest_path_to_adjacent (w : WalkMap) (start goal : Pos) :
    ((find_path_to_neighbour w start goal = []) ↔
      (∀ p ∈ (((neighboursOf goal).filter (fun n => w.walkable n)).map
        (find_path w start)), p = [])) ∧
    (find_path_to_neighbour w start goal ≠ [] →
      (∃ i, i < (((neighboursOf goal).filter (fun n => w.walkable n)).map
          (find_path w start)).length ∧
        find_path_to_neighbour w start goal =
          nthD (((neighboursOf goal).filter (fun n => w.walkable n)).map
            (find_path w start)) i ∧
        (∀ j, nthD (((neighboursOf goal).filter (fun n => w.walkable n)).map
            (find_path w start)) j ≠ [] →
          (find_path_to_neighbour w start goal).length ≤
            (nthD (((neighboursOf goal).filter (fun n => w.walkable n)).map
              (find_path w start)) j).length) ∧
        (∀ j, j < i → nthD (((neighboursOf goal).filter (fun n => w.walkable n)).map
            (find_path w start)) j ≠ [] →
          (find_path_to_neighbour w start goal).length <
            (nthD (((neighboursOf goal).filter (fun n => w.walkable n)).map
              (find_path w start)) j).length))) := by
  have heq := find_path_to_neighbour_eq_fold w start goal
  set ps := (((neighboursOf goal).filter (fun n => w.walkable n)).map
    (find_path w start)) with hps
  rcases foldl_keepShorter_spec ps with ⟨hre, hall⟩ | ⟨i, hi, hri, hrne, hmin, hstrict⟩
  · constructor
    · constructor
      · intro _; exact hall
      · intro _; rw [heq]; exact hre
    · intro hne
      exact absurd (heq.trans hre) hne
  · constructor
    · constructor
      · intro he
        exact absurd (heq.symm.trans he) hrne
      · intro hall
        have := nthD_mem ps i hi
        exact absurd (hall _ this) (hri ▸ hrne)
    · intro _
      exact ⟨i, hi, heq.trans hri, fun j hj => heq ▸ hmin j hj,
        fun j hji hj => heq ▸ hstrict j hji hj⟩

end Warehouse

namespace Warehouse

/-- Cell types of `grid.py`: EMPTY=0, SHELF=1, ITEM=2, DEPOT=3. -/
inductive Cell where
  | EMPTY
  | SHELF
  | ITEM
  | DEPOT
deriving DecidableEq, Repr

/-- The left-side shelf-column loop of `Grid._build`: from
`centre - half_ca - shelf_width` step outward (downward) by
`shelf_width + aisle_width` while `pos >= 1`, adding `pos` and `pos+1`.
Fuel bounds the iteration count; for a positive step (`aisle_width >= -1`)
the starting fuel below always suffices, matching the Python loop. -/
def shelfColsLeft (step : Int) : Nat → Int → List Int
  | 0, _ => []
  | fuel + 1, pos =>
    if pos ≥ 1 then pos :: (pos + 1) :: shelfColsLeft step fuel (pos - step) else []

/-- The right-side shelf-column loop of `Grid._build`: from
`centre + half_ca + 1` step outward by `shelf_width + aisle_width` while
`pos + 1 <= cols - 2`, adding `pos` and `pos+1`. -/
def shelfColsRight (cols step : Int) : Nat → Int → List Int
  | 0, _ => []
  | fuel + 1, pos =>
    if pos + 1 ≤ cols - 2 then
      pos :: (pos + 1) :: shelfColsRight cols step fuel (pos + step)
    else []

/-- The state of a `grid.Grid` object after construction.  `cells` is the
layout function realised by `Grid._build` (the Python 2-D list is only ever
read at in-bounds indices, all guarded by the bounds checks modelled in
`is_walkable` and the range iterations below). -/
structure Grid where
  rows : Int
  cols : Int
  shelf_width : Int
  aisle_width : Int
  centre_aisle_width : Int
  depot_row : Int
  depot_col : Int
  shelf_start_row : Int
  shelf_end_row : Int
  shelf_cols : List Int
  cells : Pos → Cell

/-- `grid.depot`, the `(depot_row, depot_col)` pair. -/
def Grid.depot (g : Grid) : Pos := (g.depot_row, g.depot_col)

/-- `Grid.__init__` + `Grid._build`: validate the configuration, clamp the
shelf-row bounds, lay out shelves and items.  Raised `ValueError`s are
modelled as `Except.error`. -/
def mkGrid (rows cols aisle_width centre_aisle_width : Int)
    (depot_row depot_col shelf_start_row shelf_end_row : Option Int) :
    Except String Grid :=
  if centre_aisle_width.emod 2 = 0 then
    Except.error ("centre_aisle_width must be odd")
  else
    let centre := cols.fdiv 2
    let half_ca := centre_aisle_width.fdiv 2
    if centre - half_ca - 2 < 1 then
      Except.error ("Grid too narrow for the given aisle parameters")
    else
      let dr := depot_row.getD 0
      let dc := depot_col.getD (cols.fdiv 2)
      let s := max 1 (shelf_start_row.getD 1)
      let e := min (rows - 2) (shelf_end_row.getD (rows - 2))
      if s > e then
        Except.error ("shelf_start_row must be <= shelf_end_row")
      else
        let step := 2 + aisle_width
        let leftCols := shelfColsLeft step ((centre - half_ca - 2).toNat + 1)
          (centre - half_ca - 2)
        let rightCols := shelfColsRight cols step
          ((cols - 2 - (centre + half_ca + 1)).toNat + 2) (centre + half_ca + 1)
        let shelfCols := leftCols ++ rightCols
        Except.ok
          { rows := rows
            cols := cols
            shelf_width := 2
            aisle_width := aisle_width
            centre_aisle_width := centre_aisle_width
            depot_row := dr
            depot_col := dc
            shelf_start_row := s
            shelf_end_row := e
            shelf_cols := shelfCols
            cells := fun p =>
              if p.1 = dr ∧ p.2 = dc then Cell.DEPOT
              else if s ≤ p.1 ∧ p.1 ≤ e ∧ p.2 ∈ shelfCols then Cell.ITEM
              else Cell.EMPTY }

/-- `Grid.is_walkable`: in bounds and of type EMPTY or DEPOT. -/
def Grid.is_walkable (g : Grid) (p : Pos) : Bool :=
  if p.1 < 0 || p.1 ≥ g.rows || p.2 < 0 || p.2 ≥ g.cols then false
  else decide (g.cells p = Cell.EMPTY) || decide (g.cells p = Cell.DEPOT)

/-- `Grid.get_all_item_positions`: every `(r, c)` with an ITEM cell,
row-major as the Python double loop produces them. -/
def Grid.get_all_item_positions (g : Grid) : List Pos :=
  (List.range g.rows.toNat).flatMap fun r =>
    (List.range g.cols.toNat).filterMap fun c =>
      if g.cells (Int.ofNat r, Int.ofNat c) = Cell.ITEM then
        some (Int.ofNat r, Int.ofNat c)
      else none

/-- `Grid.remove_item`: ITEM becomes SHELF, anything else is a no-op.
(The Python callers only pass in-bounds item positions.) -/
def Grid.remove_item (g : Grid) (p : Pos) : Grid :=
  if g.cells p = Cell.ITEM then
    { g with cells := fun q => if q = p then Cell.SHELF else g.cells q }
  else g

/-- The pathfinder-facing view of a grid. -/
def Grid.toWalkMap (g : Grid) : WalkMap where
  rows := g.rows
  cols := g.cols
  walkable := g.is_walkable
  bounded := by
    intro p h
    rw [Grid.is_walkable] at h
    by_cases hb : p.1 < 0 || p.1 ≥ g.rows || p.2 < 0 || p.2 ≥ g.cols
    · rw [if_pos hb] at h; exact absurd h (by simp)
    · simp only [Bool.or_eq_true, decide_eq_true_eq, not_or] at hb
      omega

/-- C7: grid construction fails exactly for an even centre-aisle width, a
grid too narrow for the aisle geometry, or shelf-row bounds inverted after
clamping; on success the stored shelf-row bounds are the clamped values and
lie inside `[1, rows-2]` (out-of-range inputs are clamped, not rejected). -/
theorem C7_grid_construction_errors (rows cols aisle_width centre_aisle_width : Int)
    (depot_row depot_col shelf_start_row shelf_end_row : Option Int) :
    ((∃ msg, mkGrid rows cols aisle_width centre_aisle_width
        depot_row depot_col shelf_start_row shelf_end_row = Except.error msg) ↔
      (centre_aisle_width.emod 2 = 0 ∨
        cols.fdiv 2 - centre_aisle_width.fdiv 2 - 2 < 1 ∨
        max 1 (shelf_start_row.getD 1) >
          min (rows - 2) (shelf_end_row.getD (rows - 2)))) ∧
    (∀ g, mkGrid rows cols aisle_width centre_aisle_width
        depot_row depot_col shelf_start_row shelf_end_row = Except.ok g →
      g.shelf_start_row = max 1 (shelf_start_row.getD 1) ∧
      g.shelf_end_row = min (rows - 2) (shelf_end_row.getD (rows - 2)) ∧
      1 ≤ g.shelf_start_row ∧ g.shelf_start_row ≤ g.shelf_end_row ∧
      g.shelf_end_row ≤ rows - 2) := by
  by_cases h1 : centre_aisle_width.emod 2 = 0
  · constructor
    · constructor
      · intro _; exact Or.inl h1
      · intro _
        exact ⟨("centre_aisle_width must be odd"), by rw [mkGrid, if_pos h1]⟩
    · intro g hg
      rw [mkGrid, if_pos h1] at hg
      exact absurd hg (by simp)
  · by_cases h2 : cols.fdiv 2 - centre_aisle_width.fdiv 2 - 2 < 1
    · constructor
      · constructor
        · intro _; exact Or.inr (Or.inl h2)
        · intro _
          exact ⟨("Grid too narrow for the given aisle parameters"),
            by rw [mkGrid, if_neg h1, if_pos h2]⟩
      · intro g hg
        rw [mkGrid, if_neg h1, if_pos h2] at hg
        exact Except.noConfusion hg
    · by_cases h3 : max 1 (shelf_start_row.getD 1) >
          min (rows - 2) (shelf_end_row.getD (rows - 2))
      · constructor
        · constructor
          · intro _; exact Or.inr (Or.inr h3)
          · intro _
            exact ⟨("shelf_start_row must be <= shelf_end_row"),
              by rw [mkGrid, if_neg h1, if_neg h2, if_pos h3]⟩
        · intro g hg
          rw [mkGrid, if_neg h1, if_neg h2, if_pos h3] at hg
          exact Except.noConfusion hg
      · constructor
        · constructor
          · intro hmsg
            rcases hmsg with ⟨msg, hmsg⟩
            rw [mkGrid, if_neg h1, if_neg h2, if_neg h3] at hmsg
            exact Except.noConfusion hmsg
          · intro hor
            rcases hor with h | h | h
            · exact absurd h h1
            · exact absurd h h2
            · exact absurd h h3
        · intro g hg
          rw [mkGrid, if_neg h1, if_neg h2, if_neg h3] at hg
          rw [Except.ok.injEq] at hg
          subst hg
          refine ⟨rfl, rfl, le_max_left _ _, not_lt.mp h3, min_le_left _ _⟩

end Warehouse

namespace Warehouse

open Filter

/-- `agent.TOTAL_ORDERS` (the order quota constant; the scenario claims
instantiate the quota, so the state machine below takes it as a parameter
with this as the module's value). -/
def TOTAL_ORDERS : Nat := 20

/-- `agent.PICKUP_BASE_TICKS`. -/
def PICKUP_BASE_TICKS : Int := 5

/-- `agent.BLOCKED_WAIT_TICKS`. -/
def BLOCKED_WAIT_TICKS : Nat := 3

/-- `agent.WALK_TIME = 1/3600` hours. -/
noncomputable def WALK_TIME : ℝ := 1 / 3600

/-- `agent.PICKUP_BASE_TIME = 10/3600` hours. -/
noncomputable def PICKUP_BASE_TIME : ℝ := 10 / 3600

/-- `agent.DROPOFF_TIME = 30/3600` hours. -/
noncomputable def DROPOFF_TIME : ℝ := 30 / 3600

/-- `agent.FATIGUE_d = 0.20`. -/
noncomputable def FATIGUE_d : ℝ := 0.20

/-- `agent.FATIGUE_r = 0.25`. -/
noncomputable def FATIGUE_r : ℝ := 0.25

/-- `agent.FATIGUE_alpha = 0.40`. -/
noncomputable def FATIGUE_alpha : ℝ := 0.40

/-- `agent.LEARNING_RATE = 0.90`. -/
noncomputable def LEARNING_RATE : ℝ := 0.90

/-- `agent.AUTOMATION_M = 0.0`. -/
noncomputable def AUTOMATION_M : ℝ := 0.0

/-- `agent.EXPERIENCE_B.get(agent_id, 20.0)`: 1000h for agent 1, 20h for
agent 2, and the novice default 20h otherwise. -/
noncomputable def experienceBOf (agent_id : Nat) : ℝ :=
  if agent_id = 1 then 1000.0 else if agent_id = 2 then 20.0 else 20.0

/-- `Agent._fatigue_buildup`: `I(w) = 1 - exp(-d w)`. -/
noncomputable def fatigue_buildup (work_time : ℝ) : ℝ :=
  1.0 - Real.exp (-FATIGUE_d * work_time)

/-- `Agent._fatigue_recovery`: `R(x) = exp(-r x) - 1`. -/
noncomputable def fatigue_recovery (rest_time : ℝ) : ℝ :=
  Real.exp (-FATIGUE_r * rest_time) - 1.0

/-- `Agent._update_fatigue`: `F = clamp(I(w) + R(x), 0, 1)` as the value
written to `self.fatigue` (`max(0.0, min(1.0, raw))`). -/
noncomputable def fatigueF (work_time rest_time : ℝ) : ℝ :=
  max 0.0 (min 1.0 (fatigue_buildup work_time + fatigue_recovery rest_time))

/-- The learning exponent `b = -log(LR)/log(2)` of `Agent._experience_factor`. -/
noncomputable def learning_b : ℝ :=
  -Real.log LEARNING_RATE / Real.log 2

/-- `Agent._experience_factor`: `E = M + (1-M) (w+B)^(-b)`, with `w+B`
floored to `0.001` when non-positive. -/
noncomputable def experience_factor (work_time experience_B : ℝ) : ℝ :=
  let w_total := work_time + experience_B
  let w_total := if w_total ≤ 0 then 0.001 else w_total
  AUTOMATION_M + (1.0 - AUTOMATION_M) * w_total ^ (-learning_b)

theorem learning_b_pos : 0 < learning_b := by
  rw [learning_b, LEARNING_RATE]
  have h1 : Real.log 0.90 < 0 := Real.log_neg (by norm_num) (by norm_num)
  have h2 : 0 < Real.log 2 := Real.log_pos (by norm_num)
  exact div_pos (by linarith) h2

/-- C6: the clamped fatigue value is non-decreasing in work time for fixed
rest time, and non-increasing in rest time for fixed work time, over
non-negative times. -/
theorem C6_fatigue_monotone :
    (∀ x w₁ w₂ : ℝ, 0 ≤ x → 0 ≤ w₁ → w₁ ≤ w₂ → fatigueF w₁ x ≤ fatigueF w₂ x) ∧
    (∀ w x₁ x₂ : ℝ, 0 ≤ w → 0 ≤ x₁ → x₁ ≤ x₂ → fatigueF w x₂ ≤ fatigueF w x₁) := by
  have hd : (0:ℝ) < FATIGUE_d := by rw [FATIGUE_d]; norm_num
  have hr : (0:ℝ) < FATIGUE_r := by rw [FATIGUE_r]; norm_num
  constructor
  · intro x w₁ w₂ _ _ hw
    have hbuild : fatigue_buildup w₁ ≤ fatigue_buildup w₂ := by
      rw [fatigue_buildup, fatigue_buildup]
      have := Real.exp_le_exp.mpr (by nlinarith : -FATIGUE_d * w₂ ≤ -FATIGUE_d * w₁)
      linarith
    exact max_le_max le_rfl (min_le_min le_rfl (by linarith))
  · intro w x₁ x₂ _ _ hx
    have hrec : fatigue_recovery x₂ ≤ fatigue_recovery x₁ := by
      rw [fatigue_recovery, fatigue_recovery]
      have := Real.exp_le_exp.mpr (by nlinarith : -FATIGUE_r * x₂ ≤ -FATIGUE_r * x₁)
      linarith
    exact max_le_max le_rfl (min_le_min le_rfl (by linarith))

/-- C5: for fixed prior experience `B > 0` the experience factor is strictly
decreasing in work time on `[0, ∞)` and tends to `M` (`= 0`) at infinity. -/
theorem C5_experience_factor (B : ℝ) (hB : 0 < B) :
    (∀ w₁ w₂ : ℝ, 0 ≤ w₁ → w₁ < w₂ →
      experience_factor w₂ B < experience_factor w₁ B) ∧
    Tendsto (fun w => experience_factor w B) atTop (nhds AUTOMATION_M) := by
  have hbpos := learning_b_pos
  have hval : ∀ w : ℝ, 0 ≤ w → experience_factor w B = (w + B) ^ (-learning_b) := by
    intro w hw
    have hpos : ¬ w + B ≤ 0 := by linarith
    rw [experience_factor]
    simp only [hpos, if_false, AUTOMATION_M]
    ring
  constructor
  · intro w₁ w₂ hw₁ hlt
    rw [hval w₁ hw₁, hval w₂ (by linarith)]
    have h1 : (0:ℝ) < w₁ + B := by linarith
    have h2 : (0:ℝ) < w₂ + B := by linarith
    rw [Real.rpow_neg (le_of_lt h1), Real.rpow_neg (le_of_lt h2)]
    exact inv_strictAnti₀ (Real.rpow_pos_of_pos h1 _)
      (Real.rpow_lt_rpow (le_of_lt h1) (by linarith) hbpos)
  · have hcong : (fun w : ℝ => (w + B) ^ (-learning_b)) =ᶠ[atTop]
        (fun w => experience_factor w B) := by
      filter_upwards [eventually_ge_atTop (0:ℝ)] with w hw
      exact (hval w hw).symm
    have hlim : Tendsto (fun w : ℝ => (w + B) ^ (-learning_b)) atTop (nhds 0) :=
      (tendsto_rpow_neg_atTop hbpos).comp (tendsto_atTop_add_const_right atTop B tendsto_id)
    have h00 : (0.0 : ℝ) = 0 := by norm_num
    rw [AUTOMATION_M, h00]
    exact Tendsto.congr' hcong hlim

/-- Concrete instantiation of `C5_experience_factor` at `B = 1`. -/
theorem C5_experience_factor_witness :
    (0:ℝ) < 1 ∧
      ((∀ w₁ w₂ : ℝ, 0 ≤ w₁ → w₁ < w₂ →
        experience_factor w₂ 1 < experience_factor w₁ 1) ∧
      Tendsto (fun w => experience_factor w 1) atTop (nhds AUTOMATION_M)) :=
  ⟨by norm_num, C5_experience_factor 1 (by norm_num)⟩

end Warehouse

namespace Warehouse

/-- Python's `round` on a real value: round half to even. -/
noncomputable def pyRound (x : ℝ) : Int :=
  if Int.fract x = 1 / 2 then (if Even ⌊x⌋ then ⌊x⌋ else ⌊x⌋ + 1)
  else round x

/-- The lifecycle states of `agent.Agent`. -/
inductive AState where
  | waiting
  | to_item
  | picking_up
  | to_depot
  | resting
  | all_done
deriving DecidableEq, Repr

/-- The per-agent state of `agent.Agent` (the `grid` reference is threaded
explicitly through `step` since the two agents share one mutable grid; the
display-only `color` field is omitted). -/
structure AgentS where
  agent_id : Nat
  pos : Pos
  state : AState
  target : Option Pos
  path : List Pos
  path_index : Nat
  pickup_ticks_remaining : Int
  work_time : ℝ
  rest_time : ℝ
  fatigue : ℝ
  experience_B : ℝ
  distance : Nat
  orders_completed : Nat
  blocked_ticks_remaining : Nat
  blocked_count : Nat

/-- `Agent.__init__`: at the depot, waiting, all counters zero. -/
noncomputable def mkAgent (g : Grid) (agent_id : Nat) : AgentS where
  agent_id := agent_id
  pos := g.depot
  state := AState.waiting
  target := none
  path := []
  path_index := 0
  pickup_ticks_remaining := 0
  work_time := 0.0
  rest_time := 0.0
  fatigue := 0.0
  experience_B := experienceBOf agent_id
  distance := 0
  orders_completed := 0
  blocked_ticks_remaining := 0
  blocked_count := 0

/-- `Agent._update_fatigue` applied to the agent's accumulators. -/
noncomputable def updateFatigue (a : AgentS) : AgentS :=
  { a with fatigue := fatigueF a.work_time a.rest_time }

/-- `Agent._adjusted_pickup_ticks`: `max(1, round((1+alpha F) E Do))`. -/
noncomputable def adjustedPickupTicks (a : AgentS) : Int :=
  max 1 (pyRound ((1.0 + FATIGUE_alpha * a.fatigue) *
    experience_factor a.work_time a.experience_B * (PICKUP_BASE_TICKS : ℝ)))

/-- `Agent._pick_next_item`: `None` when no items remain, else an item cell;
the `random.choice` draw is modelled by an oracle index reduced mod the
list length, so every possible draw is covered. -/
def pick_next_item (g : Grid) (pickIx : Nat) : Option Pos :=
  let available := g.get_all_item_positions
  if available.length = 0 then none
  else some (available.getD (pickIx % available.length) (0, 0))

/-- `Agent._plan_path_to_item` (call sites guarantee `target` is set). -/
def plan_path_to_item (g : Grid) (a : AgentS) : AgentS :=
  { a with
    path := find_path_to_neighbour g.toWalkMap a.pos (a.target.getD (0, 0))
    path_index := 0
    state := AState.to_item }

/-- `Agent._plan_path_to_depot`. -/
def plan_path_to_depot (g : Grid) (a : AgentS) : AgentS :=
  { a with
    path := find_path g.toWalkMap a.pos g.depot
    path_index := 0
    state := AState.to_depot }

/-- `Agent.peek_next_pos`: the next intended cell, `None` while blocked or
not in a walking state. -/
def AgentS.peek_next_pos (a : AgentS) : Option Pos :=
  if a.blocked_ticks_remaining > 0 then none
  else if (a.state = AState.to_item ∨ a.state = AState.to_depot) ∧
      a.path_index < a.path.length then
    some (a.path.getD a.path_index (0, 0))
  else none

/-- `Agent.is_done`. -/
def AgentS.is_done (a : AgentS) : Bool :=
  a.state = AState.all_done

/-- `Agent.step`, one simulation tick.  `total_orders` is the module
constant `TOTAL_ORDERS` (kept as a parameter so the quota scenarios can be
stated); `pauseRoll` is the outcome of the `_should_pause_walk` random
draw (when fatigue is 0 the Python draw is always `False`; quantifying over
both outcomes covers every execution). -/
noncomputable def AgentS.step (total_orders : Nat) (g : Grid) (pickIx : Nat)
    (pauseRoll : Bool) (a : AgentS) : Grid × AgentS :=
  match a.state with
  | AState.waiting =>
    match pick_next_item g pickIx with
    | some tp => (g, plan_path_to_item g { a with target := some tp })
    | none => (g, { a with target := none, state := AState.all_done })
  | AState.to_item =>
    if a.blocked_ticks_remaining > 0 then
      (g, updateFatigue { a with
        blocked_ticks_remaining := a.blocked_ticks_remaining - 1
        work_time := a.work_time + WALK_TIME })
    else if pauseRoll then
      (g, updateFatigue { a with work_time := a.work_time + WALK_TIME })
    else if a.path_index < a.path.length then
      (g, updateFatigue { a with
        pos := a.path.getD a.path_index (0, 0)
        path_index := a.path_index + 1
        distance := a.distance + 1
        work_time := a.work_time + WALK_TIME })
    else
      (g, { a with
        pickup_ticks_remaining := adjustedPickupTicks a
        state := AState.picking_up })
  | AState.picking_up =>
    let a1 := updateFatigue { a with
      pickup_ticks_remaining := a.pickup_ticks_remaining - 1
      work_time := a.work_time + PICKUP_BASE_TIME }
    if a1.pickup_ticks_remaining ≤ 0 then
      let g1 := g.remove_item (a.target.getD (0, 0))
      (g1, plan_path_to_depot g1 { a1 with orders_completed := a1.orders_completed + 1 })
    else (g, a1)
  | AState.to_depot =>
    if a.blocked_ticks_remaining > 0 then
      (g, updateFatigue { a with
        blocked_ticks_remaining := a.blocked_ticks_remaining - 1
        work_time := a.work_time + WALK_TIME })
    else if pauseRoll then
      (g, updateFatigue { a with work_time := a.work_time + WALK_TIME })
    else if a.path_index < a.path.length then
      (g, updateFatigue { a with
        pos := a.path.getD a.path_index (0, 0)
        path_index := a.path_index + 1
        distance := a.distance + 1
        work_time := a.work_time + WALK_TIME })
    else (g, { a with state := AState.resting })
  | AState.resting =>
    let a1 := updateFatigue { a with rest_time := a.rest_time + DROPOFF_TIME }
    if a1.orders_completed ≥ total_orders then
      (g, { a1 with state := AState.all_done })
    else
      match pick_next_item g pickIx with
      | some tp => (g, plan_path_to_item g { a1 with target := some tp })
      | none => (g, { a1 with target := none, state := AState.all_done })
  | AState.all_done => (g, a)

/-- The priority tuple of `main.resolve_right_of_way`:
`(state_score, id_score)`. -/
def agentPriority (a : AgentS) : Nat × Nat :=
  (if a.state = AState.to_depot then 1 else 0, if a.agent_id = 1 then 1 else 0)

/-- Python tuple comparison `p >= q` on pairs of naturals. -/
def tupleGeb (p q : Nat × Nat) : Bool :=
  q.1 < p.1 || (p.1 == q.1 && q.2 ≤ p.2)

/-- Mark an agent as the loser of a right-of-way conflict: count a new
blocking event only on the zero-to-nonzero transition, then set the
countdown to `BLOCKED_WAIT_TICKS`. -/
def blockAgent (a : AgentS) : AgentS :=
  { a with
    blocked_count :=
      if a.blocked_ticks_remaining = 0 then a.blocked_count + 1 else a.blocked_count
    blocked_ticks_remaining := BLOCKED_WAIT_TICKS }

/-- `main.resolve_right_of_way`: on a same-destination or head-on conflict
between the two intended next cells, the lower-priority agent yields. -/
def resolve_right_of_way (a1 a2 : AgentS) : AgentS × AgentS :=
  if a1.is_done || a2.is_done then (a1, a2)
  else
    match a1.peek_next_pos, a2.peek_next_pos with
    | some n1, some n2 =>
      if ¬ (n1 = n2 ∨ (n1 = a2.pos ∧ n2 = a1.pos)) then (a1, a2)
      else if tupleGeb (agentPriority a1) (agentPriority a2) then (a1, blockAgent a2)
      else (blockAgent a1, a2)
    | _, _ => (a1, a2)

end Warehouse

namespace Warehouse

/-- C1: when both agents report conflicting intended next cells
(same destination or head-on swap), `to_depot` outranks any other state
regardless of identity, ties are won by agent 1; the loser's countdown is
set to the fixed wait of `BLOCKED_WAIT_TICKS = 3` and its blocked-event
counter increments exactly once, on the zero-to-nonzero transition (an
already-blocked agent reports no intention, so it can never re-trigger). -/
theorem C1_right_of_way (a1 a2 : AgentS) (n1 n2 : Pos)
    (hid1 : a1.agent_id = 1) (hid2 : a2.agent_id = 2)
    (hd1 : a1.is_done = false) (hd2 : a2.is_done = false)
    (hp1 : a1.peek_next_pos = some n1) (hp2 : a2.peek_next_pos = some n2)
    (hconf : n1 = n2 ∨ (n1 = a2.pos ∧ n2 = a1.pos)) :
    (a1.blocked_ticks_remaining = 0 ∧ a2.blocked_ticks_remaining = 0) ∧
    ((a2.state = AState.to_depot ∧ a1.state ≠ AState.to_depot) →
      resolve_right_of_way a1 a2 =
        ({ a1 with
            blocked_ticks_remaining := BLOCKED_WAIT_TICKS
            blocked_count := a1.blocked_count + 1 }, a2)) ∧
    (¬ (a2.state = AState.to_depot ∧ a1.state ≠ AState.to_depot) →
      resolve_right_of_way a1 a2 =
        (a1, { a2 with
            blocked_ticks_remaining := BLOCKED_WAIT_TICKS
            blocked_count := a2.blocked_count + 1 })) ∧
    (∀ b : AgentS, 0 < b.blocked_ticks_remaining → b.peek_next_pos = none) := by
  have hb1 : a1.blocked_ticks_remaining = 0 := by
    by_contra h
    rw [AgentS.peek_next_pos, if_pos (Nat.pos_of_ne_zero h)] at hp1
    exact Option.noConfusion hp1
  have hb2 : a2.blocked_ticks_remaining = 0 := by
    by_contra h
    rw [AgentS.peek_next_pos, if_pos (Nat.pos_of_ne_zero h)] at hp2
    exact Option.noConfusion hp2
  have hres : resolve_right_of_way a1 a2 =
      (if tupleGeb (agentPriority a1) (agentPriority a2) then (a1, blockAgent a2)
       else (blockAgent a1, a2)) := by
    rw [resolve_right_of_way, hd1, hd2]
    simp only [Bool.or_self, Bool.false_eq_true, if_false, hp1, hp2]
    rw [if_neg (not_not_intro hconf)]
  refine ⟨⟨hb1, hb2⟩, ?_, ?_, ?_⟩
  · intro ⟨h2d, h1d⟩
    have hge : tupleGeb (agentPriority a1) (agentPriority a2) = false := by
      rw [agentPriority, agentPriority, if_pos h2d, if_neg h1d, tupleGeb]
      simp
    rw [hres, if_neg (by simp [hge])]
    rw [blockAgent, if_pos hb1]
  · intro hcase
    have hge : tupleGeb (agentPriority a1) (agentPriority a2) = true := by
      rw [agentPriority, agentPriority, hid1, hid2, tupleGeb]
      by_cases h2d : a2.state = AState.to_depot
      · have h1d : a1.state = AState.to_depot := by
          by_contra h1d
          exact hcase ⟨h2d, h1d⟩
        rw [if_pos h2d, if_pos h1d]
        simp
      · rw [if_neg h2d]
        by_cases h1d : a1.state = AState.to_depot
        · rw [if_pos h1d]; simp
        · rw [if_neg h1d]; simp
    rw [hres, if_pos (by simp [hge])]
    rw [blockAgent, if_pos hb2]
  · intro b hb
    rw [AgentS.peek_next_pos, if_pos hb]

/-- Concrete instantiation of `C1_right_of_way`: two walking agents that
both intend to enter cell `(0, 1)`. -/
theorem C1_right_of_way_witness :
    let a1 : AgentS :=
      { agent_id := 1, pos := (0, 0), state := AState.to_item, target := none
        path := [(0, 1)], path_index := 0, pickup_ticks_remaining := 0
        work_time := 0, rest_time := 0, fatigue := 0, experience_B := 0
        distance := 0, orders_completed := 0, blocked_ticks_remaining := 0
        blocked_count := 0 }
    let a2 : AgentS :=
      { agent_id := 2, pos := (1, 1), state := AState.to_item, target := none
        path := [(0, 1)], path_index := 0, pickup_ticks_remaining := 0
        work_time := 0, rest_time := 0, fatigue := 0, experience_B := 0
        distance := 0, orders_completed := 0, blocked_ticks_remaining := 0
        blocked_count := 0 }
    (a1.blocked_ticks_remaining = 0 ∧ a2.blocked_ticks_remaining = 0) ∧
    ((a2.state = AState.to_depot ∧ a1.state ≠ AState.to_depot) →
      resolve_right_of_way a1 a2 =
        ({ a1 with
            blocked_ticks_remaining := BLOCKED_WAIT_TICKS
            blocked_count := a1.blocked_count + 1 }, a2)) ∧
    (¬ (a2.state = AState.to_depot ∧ a1.state ≠ AState.to_depot) →
      resolve_right_of_way a1 a2 =
        (a1, { a2 with
            blocked_ticks_remaining := BLOCKED_WAIT_TICKS
            blocked_count := a2.blocked_count + 1 })) ∧
    (∀ b : AgentS, 0 < b.blocked_ticks_remaining → b.peek_next_pos = none) :=
  C1_right_of_way _ _ (0, 1) (0, 1) rfl rfl rfl rfl rfl rfl (Or.inl rfl)

end Warehouse

namespace Warehouse

/-- `metrics.FLASH_FRAMES`. -/
def FLASH_FRAMES : Nat := 12

/-- `metrics.MetricsTracker` state. -/
structure MetricsTracker where
  cell_conflicts : Nat
  conflict_cell : Option Pos
  flash_timer : Nat

/-- `MetricsTracker.__init__`. -/
def mkMetrics : MetricsTracker where
  cell_conflicts := 0
  conflict_cell := none
  flash_timer := 0

/-- `MetricsTracker.update` / `_check_cell_conflict`. -/
def MetricsTracker.update (m : MetricsTracker) (a1 a2 : AgentS) (depot : Pos) :
    MetricsTracker :=
  if a1.is_done || a2.is_done then m
  else if a1.pos = a2.pos ∧ a1.pos ≠ depot then
    { cell_conflicts := m.cell_conflicts + 1
      conflict_cell := some a1.pos
      flash_timer := FLASH_FRAMES }
  else m

/-- The whole simulation state threaded by the `run_headless` loop. -/
structure SimState where
  grid : Grid
  agent1 : AgentS
  agent2 : AgentS
  metrics : MetricsTracker
  ticks : Nat

/-- One iteration of the `run_headless` loop body: resolve right of way,
step agent 1, step agent 2 (on the grid agent 1 may have mutated), update
metrics, increment the tick counter.  `o1`/`o2` are the random-draw
oracles of the two agents for this tick. -/
noncomputable def simTick (total_orders : Nat) (o1 o2 : Nat × Bool)
    (s : SimState) : SimState :=
  let r := resolve_right_of_way s.agent1 s.agent2
  let g1 := (AgentS.step total_orders s.grid o1.1 o1.2 r.1).1
  let a1 := (AgentS.step total_orders s.grid o1.1 o1.2 r.1).2
  let g2 := (AgentS.step total_orders g1 o2.1 o2.2 r.2).1
  let a2 := (AgentS.step total_orders g1 o2.1 o2.2 r.2).2
  { grid := g2
    agent1 := a1
    agent2 := a2
    metrics := s.metrics.update a1 a2 g2.depot
    ticks := s.ticks + 1 }

/-- The `while not (agent1.is_done() and agent2.is_done())` loop of
`run_headless`, with `remaining = max_ticks - ticks` as the structural
fuel (the `ticks >= max_ticks` break). -/
noncomputable def runLoop (total_orders : Nat)
    (oracle : Nat → (Nat × Bool) × (Nat × Bool)) :
    Nat → SimState → SimState
  | 0, s => s
  | rem + 1, s =>
    if s.agent1.is_done && s.agent2.is_done then s
    else runLoop total_orders oracle rem
      (simTick total_orders (oracle s.ticks).1 (oracle s.ticks).2 s)

/-- The dictionary `run_headless` returns. -/
structure RunResult where
  total_distance : Nat
  agent1_distance : Nat
  agent2_distance : Nat
  cell_conflicts : Nat
  agent1_work_time : ℝ
  agent2_work_time : ℝ
  agent1_fatigue : ℝ
  agent2_fatigue : ℝ
  agent1_blocked : Nat
  agent2_blocked : Nat
  ticks : Nat
  throughput : ℝ
  completed : Bool

/-- The summary record built at the end of `run_headless`. -/
noncomputable def resultOf (s : SimState) : RunResult :=
  let total_work := s.agent1.work_time + s.agent2.work_time
  let total_orders := s.agent1.orders_completed + s.agent2.orders_completed
  { total_distance := s.agent1.distance + s.agent2.distance
    agent1_distance := s.agent1.distance
    agent2_distance := s.agent2.distance
    cell_conflicts := s.metrics.cell_conflicts
    agent1_work_time := s.agent1.work_time
    agent2_work_time := s.agent2.work_time
    agent1_fatigue := s.agent1.fatigue
    agent2_fatigue := s.agent2.fatigue
    agent1_blocked := s.agent1.blocked_count
    agent2_blocked := s.agent2.blocked_count
    ticks := s.ticks
    throughput := if total_work > 0 then (total_orders : ℝ) / total_work else 0.0
    completed := s.agent1.is_done && s.agent2.is_done }

/-- `main.run_headless` up to the final record: build the grid (whose
construction may raise), the two agents and the metrics, run the tick
loop, and return the final simulation state. -/
noncomputable def runSimulation (rows cols aisle_width centre_aisle_width : Int)
    (depot_row depot_col shelf_start_row shelf_end_row : Option Int)
    (max_ticks : Nat) (total_orders : Nat)
    (oracle : Nat → (Nat × Bool) × (Nat × Bool)) : Except String SimState :=
  match mkGrid rows cols aisle_width centre_aisle_width
      depot_row depot_col shelf_start_row shelf_end_row with
  | Except.error e => Except.error e
  | Except.ok grid =>
    Except.ok (runLoop total_orders oracle max_ticks
      { grid := grid
        agent1 := mkAgent grid 1
        agent2 := mkAgent grid 2
        metrics := mkMetrics
        ticks := 0 })

/-- `main.run_headless`: the metrics dictionary of the finished run. -/
noncomputable def run_headless (rows cols aisle_width centre_aisle_width : Int)
    (depot_row depot_col shelf_start_row shelf_end_row : Option Int)
    (max_ticks : Nat) (total_orders : Nat)
    (oracle : Nat → (Nat × Bool) × (Nat × Bool)) : Except String RunResult :=
  Except.map resultOf (runSimulation rows cols aisle_width centre_aisle_width
    depot_row depot_col shelf_start_row shelf_end_row max_ticks total_orders oracle)

/-- C8: with `max_ticks = 0` the batch runner returns `completed = false`
and `ticks = 0` with both agents exactly in their initial state; in
general, hitting the tick ceiling is reported through the `completed`
flag of the returned record (the runner always returns a record for any
grid that constructs, it never raises past construction). -/
theorem C8_run_zero_ticks (rows cols aisle_width centre_aisle_width : Int)
    (depot_row depot_col shelf_start_row shelf_end_row : Option Int)
    (total_orders : Nat) (oracle : Nat → (Nat × Bool) × (Nat × Bool)) :
    (∀ g, mkGrid rows cols aisle_width centre_aisle_width
        depot_row depot_col shelf_start_row shelf_end_row = Except.ok g →
      runSimulation rows cols aisle_width centre_aisle_width
          depot_row depot_col shelf_start_row shelf_end_row 0 total_orders oracle =
        Except.ok
          { grid := g, agent1 := mkAgent g 1, agent2 := mkAgent g 2
            metrics := mkMetrics, ticks := 0 } ∧
      (∃ r, run_headless rows cols aisle_width centre_aisle_width
          depot_row depot_col shelf_start_row shelf_end_row 0 total_orders oracle =
        Except.ok r ∧ r.completed = false ∧ r.ticks = 0)) ∧
    (∀ max_ticks g, mkGrid rows cols aisle_width centre_aisle_width
        depot_row depot_col shelf_start_row shelf_end_row = Except.ok g →
      ∃ s, runSimulation rows cols aisle_width centre_aisle_width
          depot_row depot_col shelf_start_row shelf_end_row max_ticks total_orders
          oracle = Except.ok s ∧
        run_headless rows cols aisle_width centre_aisle_width
          depot_row depot_col shelf_start_row shelf_end_row max_ticks total_orders
          oracle = Except.ok (resultOf s) ∧
        (resultOf s).completed = (s.agent1.is_done && s.agent2.is_done) ∧
        (resultOf s).ticks = s.ticks) := by
  constructor
  · intro g hg
    have hsim : runSimulation rows cols aisle_width centre_aisle_width
        depot_row depot_col shelf_start_row shelf_end_row 0 total_orders oracle =
        Except.ok
          { grid := g, agent1 := mkAgent g 1, agent2 := mkAgent g 2
            metrics := mkMetrics, ticks := 0 } := by
      rw [runSimulation, hg]
      rfl
    refine ⟨hsim, ⟨resultOf
      { grid := g, agent1 := mkAgent g 1, agent2 := mkAgent g 2
        metrics := mkMetrics, ticks := 0 }, ?_, rfl, rfl⟩⟩
    rw [run_headless, hsim]
    rfl
  · intro max_ticks g hg
    refine ⟨runLoop total_orders oracle max_ticks
      { grid := g, agent1 := mkAgent g 1, agent2 := mkAgent g 2
        metrics := mkMetrics, ticks := 0 }, ?_, ?_, rfl, rfl⟩
    · rw [runSimulation, hg]
    · rw [run_headless, runSimulation, hg]
      rfl

/-- Concrete instantiation of `C8_run_zero_ticks` at the default
`run_headless` parameters (25 x 35 grid). -/
theorem C8_run_zero_ticks_witness :
    ∃ g, mkGrid 25 35 2 3 none none none none = Except.ok g ∧
      runSimulation 25 35 2 3 none none none none 0 TOTAL_ORDERS (fun _ => ((0, false), (0, false))) =
        Except.ok
          { grid := g, agent1 := mkAgent g 1, agent2 := mkAgent g 2
            metrics := mkMetrics, ticks := 0 } ∧
      (∃ r, run_headless 25 35 2 3 none none none none 0 TOTAL_ORDERS (fun _ => ((0, false), (0, false))) =
        Except.ok r ∧ r.completed = false ∧ r.ticks = 0) := by
  have hg : ∃ g, mkGrid 25 35 2 3 none none none none = Except.ok g := ⟨_, rfl⟩
  rcases hg with ⟨g, hg⟩
  have h := (C8_run_zero_ticks 25 35 2 3 none none none none TOTAL_ORDERS
    (fun _ => ((0, false), (0, false)))).1 g hg
  exact ⟨g, hg, h.1, h.2⟩

/-- C10: the batch runner's tick loop always terminates within the tick
ceiling: the loop is a total function whose final tick counter gains at
most its fuel, so any returned record has `ticks <= max_ticks`. -/
theorem C10_tick_loop_bounded :
    (∀ (total_orders : Nat) (oracle : Nat → (Nat × Bool) × (Nat × Bool))
        (rem : Nat) (s : SimState),
      (runLoop total_orders oracle rem s).ticks ≤ s.ticks + rem) ∧
    (∀ (rows cols aisle_width centre_aisle_width : Int)
        (depot_row depot_col shelf_start_row shelf_end_row : Option Int)
        (max_ticks total_orders : Nat)
        (oracle : Nat → (Nat × Bool) × (Nat × Bool)) (r : RunResult),
      run_headless rows cols aisle_width centre_aisle_width
        depot_row depot_col shelf_start_row shelf_end_row max_ticks total_orders
        oracle = Except.ok r → r.ticks ≤ max_ticks) := by
  have hloop : ∀ (total_orders : Nat) (oracle : Nat → (Nat × Bool) × (Nat × Bool))
      (rem : Nat) (s : SimState),
      (runLoop total_orders oracle rem s).ticks ≤ s.ticks + rem := by
    intro total_orders oracle rem
    induction rem with
    | zero =>
      intro s
      rw [runLoop]
      omega
    | succ n ih =>
      intro s
      rw [runLoop]
      by_cases h : s.agent1.is_done && s.agent2.is_done
      · rw [if_pos h]; omega
      · rw [if_neg h]
        have := ih (simTick total_orders (oracle s.ticks).1 (oracle s.ticks).2 s)
        have hst : (simTick total_orders (oracle s.ticks).1 (oracle s.ticks).2 s).ticks
            = s.ticks + 1 := rfl
        omega
  refine ⟨hloop, ?_⟩
  intro rows cols aw caw dr dc ssr ser max_ticks total_orders oracle r hr
  rw [run_headless, runSimulation] at hr
  rcases hmk : mkGrid rows cols aw caw dr dc ssr ser with e | g
  · rw [hmk] at hr
    exact Except.noConfusion hr
  · rw [hmk] at hr
    have hr2 : r = resultOf (runLoop total_orders oracle max_ticks
        { grid := g, agent1 := mkAgent g 1, agent2 := mkAgent g 2
          metrics := mkMetrics, ticks := 0 }) := by
      have : (Except.map resultOf (Except.ok (runLoop total_orders oracle max_ticks
          { grid := g, agent1 := mkAgent g 1, agent2 := mkAgent g 2
            metrics := mkMetrics, ticks := 0 })) : Except String RunResult) = Except.ok r := hr
      rw [Except.map] at this
      exact (Except.ok.inj this).symm
    rw [hr2]
    have := hloop total_orders oracle max_ticks
      { grid := g, agent1 := mkAgent g 1, agent2 := mkAgent g 2
        metrics := mkMetrics, ticks := 0 }
    simpa [resultOf] using this

/-- Concrete instantiation of `C10_tick_loop_bounded`'s record bound on the
default grid with `max_ticks = 0`. -/
theorem C10_tick_loop_bounded_witness :
    ∀ r, run_headless 25 35 2 3 none none none none 0 TOTAL_ORDERS
      (fun _ => ((0, false), (0, false))) = Except.ok r → r.ticks ≤ 0 :=
  fun r hr => C10_tick_loop_bounded.2 25 35 2 3 none none none none 0 TOTAL_ORDERS
    (fun _ => ((0, false), (0, false))) r hr

end Warehouse

namespace Warehouse

theorem entryLtb_iff (a b : Entry) :
    entryLtb a b = true ↔
      (a.f < b.f ∨ (a.f = b.f ∧ (a.steps < b.steps ∨ (a.steps = b.steps ∧
        (a.pos.1 < b.pos.1 ∨ (a.pos.1 = b.pos.1 ∧ a.pos.2 < b.pos.2)))))) := by
  rw [entryLtb, posLtb]
  simp [Bool.or_eq_true, Bool.and_eq_true, decide_eq_true_eq]

theorem entryLtb_false_f_le {a b : Entry} (h : entryLtb a b = false) :
    b.f ≤ a.f := by
  by_contra hc
  rw [← Bool.not_eq_true, entryLtb_iff] at h
  exact h (Or.inl (by omega))

theorem entryLtb_asymm {a b : Entry} (h : entryLtb a b = true) :
    entryLtb b a = false := by
  rw [entryLtb_iff] at h
  rw [← Bool.not_eq_true, entryLtb_iff]
  omega

theorem entryLtb_false_trans {a b c : Entry}
    (hab : entryLtb a b = false) (hbc : entryLtb b c = false) :
    entryLtb a c = false := by
  rw [← Bool.not_eq_true, entryLtb_iff] at hab hbc ⊢
  omega

theorem popMin_none {l : List Entry} : popMin l = none ↔ l = [] := by
  cases l with
  | nil => simp [popMin]
  | cons e es =>
    simp only [popMin]
    constructor
    · intro h
      rcases hm : popMin es with _ | ⟨m, rest⟩
      · simp only [hm] at h
        exact Option.noConfusion h
      · simp only [hm] at h
        by_cases hlt : entryLtb m e = true
        · rw [if_pos hlt] at h
          exact Option.noConfusion h
        · rw [if_neg hlt] at h
          exact Option.noConfusion h
    · intro h; exact List.noConfusion h

theorem popMin_perm {l : List Entry} {e : Entry} {rest : List Entry}
    (h : popMin l = some (e, rest)) : l.Perm (e :: rest) := by
  induction l generalizing e rest with
  | nil => exact Option.noConfusion h
  | cons a es ih =>
    rw [popMin] at h
    rcases hm : popMin es with _ | ⟨m, r⟩
    · simp only [hm, Option.some.injEq, Prod.mk.injEq] at h
      have hes : es = [] := popMin_none.mp hm
      subst hes
      rw [← h.1, ← h.2]
    · simp only [hm] at h
      by_cases hlt : entryLtb m a = true
      · rw [if_pos hlt, Option.some.injEq, Prod.mk.injEq] at h
        rcases h with ⟨he, hr⟩
        rw [← he, ← hr]
        exact List.Perm.trans (List.Perm.cons a (ih hm)) (List.Perm.swap m a r)
      · rw [if_neg hlt, Option.some.injEq, Prod.mk.injEq] at h
        rw [← h.1, ← h.2]

theorem popMin_min {l : List Entry} {e : Entry} {rest : List Entry}
    (h : popMin l = some (e, rest)) : ∀ x ∈ rest, entryLtb x e = false := by
  induction l generalizing e rest with
  | nil => exact Option.noConfusion h
  | cons a es ih =>
    rw [popMin] at h
    rcases hm : popMin es with _ | ⟨m, r⟩
    · simp only [hm, Option.some.injEq, Prod.mk.injEq] at h
      rw [← h.2]
      intro x hx
      exact absurd hx (List.not_mem_nil x)
    · simp only [hm] at h
      by_cases hlt : entryLtb m a = true
      · rw [if_pos hlt, Option.some.injEq, Prod.mk.injEq] at h
        rcases h with ⟨he, hr⟩
        rw [← he, ← hr]
        intro x hx
        rcases List.mem_cons.mp hx with hx | hx
        · rw [hx]
          exact entryLtb_asymm hlt
        · exact ih hm x hx
      · rw [if_neg hlt, Option.some.injEq, Prod.mk.injEq] at h
        rcases h with ⟨he, hr⟩
        rw [← he, ← hr]
        intro x hx
        have hmem : x = m ∨ x ∈ r := by
          have := (popMin_perm hm).mem_iff.mp hx
          simpa using this
        have hma : entryLtb m a = false := by
          rw [← Bool.not_eq_true]
          exact hlt
        rcases hmem with hx2 | hx2
        · rw [hx2]; exact hma
        · exact entryLtb_false_trans (ih hm x hx2) hma

theorem popMin_mem {l : List Entry} {e : Entry} {rest : List Entry}
    (h : popMin l = some (e, rest)) : e ∈ l :=
  (popMin_perm h).symm.subset (List.mem_cons_self e rest)

end Warehouse

namespace Warehouse

theorem slookup_cons {α : Type} (k : Pos) (v : α) (t : List (Pos × α)) (q : Pos) :
    slookup ((k, v) :: t) q = if k = q then some v else slookup t q := rfl

theorem slookup_mem_keys {α : Type} {l : List (Pos × α)} {q : Pos} {v : α}
    (h : slookup l q = some v) : q ∈ l.map Prod.fst := by
  induction l with
  | nil => exact Option.noConfusion h
  | cons kv t ih =>
    rcases kv with ⟨k, v2⟩
    rw [slookup_cons] at h
    by_cases hk : k = q
    · rw [hk]
      exact List.mem_cons_self _ _
    · rw [if_neg hk] at h
      exact List.mem_cons_of_mem _ (ih h)

theorem slookup_key_some {α : Type} {l : List (Pos × α)} {q : Pos}
    (h : q ∈ l.map Prod.fst) : ∃ v, slookup l q = some v := by
  induction l with
  | nil => simp at h
  | cons kv t ih =>
    rcases kv with ⟨k, v2⟩
    rw [slookup_cons]
    by_cases hk : k = q
    · exact ⟨v2, if_pos hk⟩
    · rw [if_neg hk]
      apply ih
      rw [List.map_cons] at h
      rcases List.mem_cons.mp h with h2 | h2
      · exact absurd h2.symm hk
      · exact h2

theorem slookup_none_iff {α : Type} {l : List (Pos × α)} {q : Pos} :
    slookup l q = none ↔ q ∉ l.map Prod.fst := by
  constructor
  · intro h hmem
    rcases slookup_key_some hmem with ⟨v, hv⟩
    rw [h] at hv
    exact Option.noConfusion hv
  · intro h
    rcases hm : slookup l q with _ | v
    · rfl
    · exact absurd (slookup_mem_keys hm) h

/-- Number of distinct keys of an association list. -/
def numKeys {α : Type} (l : List (Pos × α)) : Nat :=
  (l.map Prod.fst).dedup.length

theorem numKeys_cons_mem {α : Type} {l : List (Pos × α)} {k : Pos} (v : α)
    (h : k ∈ l.map Prod.fst) : numKeys ((k, v) :: l) = numKeys l := by
  rw [numKeys, numKeys, List.map_cons, List.dedup_cons_of_mem h]

theorem numKeys_cons_not_mem {α : Type} {l : List (Pos × α)} {k : Pos} (v : α)
    (h : k ∉ l.map Prod.fst) : numKeys ((k, v) :: l) = numKeys l + 1 := by
  rw [numKeys, numKeys, List.map_cons, List.dedup_cons_of_not_mem h, List.length_cons]

theorem numKeys_le_card {α : Type} {l : List (Pos × α)} {s : Finset Pos}
    (h : ∀ q ∈ l.map Prod.fst, q ∈ s) : numKeys l ≤ s.card := by
  rw [numKeys, ← List.card_toFinset]
  apply Finset.card_le_card
  intro q hq
  exact h q (List.mem_toFinset.mp hq)

/-- Walkable reachability in exactly `n` steps from `start`, where every
entered cell must be walkable or equal to the search goal (the goal
exemption of `find_path`). -/
inductive ReachIn (w : WalkMap) (start goal : Pos) : Nat → Pos → Prop where
  | refl : ReachIn w start goal 0 start
  | step {n : Nat} {p q : Pos} (h : ReachIn w start goal n p)
      (hadj : q ∈ neighboursOf p) (hq : w.walkable q = true ∨ q = goal) :
      ReachIn w start goal (n + 1) q

/-- The goal is reachable from the start. -/
def Reachable (w : WalkMap) (start goal : Pos) : Prop :=
  ∃ n, ReachIn w start goal n goal

/-- Graph distance from `start` to `u` (the least step count). -/
noncomputable def distTo (w : WalkMap) (start goal u : Pos) : Nat :=
  sInf { n | ReachIn w start goal n u }

theorem distTo_le {w : WalkMap} {start goal u : Pos} {n : Nat}
    (h : ReachIn w start goal n u) : distTo w start goal u ≤ n :=
  Nat.sInf_le h

theorem reach_distTo {w : WalkMap} {start goal u : Pos}
    (h : ∃ n, ReachIn w start goal n u) :
    ReachIn w start goal (distTo w start goal u) u :=
  Nat.sInf_mem h

theorem reach_zero {w : WalkMap} {start goal u : Pos}
    (h : ReachIn w start goal 0 u) : u = start := by
  cases h
  rfl

theorem distTo_start (w : WalkMap) (start goal : Pos) :
    distTo w start goal start = 0 :=
  Nat.le_antisymm (distTo_le ReachIn.refl) (Nat.zero_le _)

theorem reach_trans {w : WalkMap} {s g u v : Pos} {n m : Nat}
    (h1 : ReachIn w s g n u) (h2 : ReachIn w u g m v) :
    ReachIn w s g (n + m) v := by
  induction h2 with
  | refl => exact h1
  | step h hadj hq ih => exact ReachIn.step ih hadj hq

theorem neighboursOf_symm {p q : Pos} (h : q ∈ neighboursOf p) :
    p ∈ neighboursOf q := by
  rcases p with ⟨p1, p2⟩
  rcases q with ⟨q1, q2⟩
  simp only [neighboursOf, List.mem_cons, List.mem_singleton, Prod.mk.injEq,
    List.not_mem_nil, or_false] at h ⊢
  omega

theorem neighboursOf_not_self (p : Pos) : p ∉ neighboursOf p := by
  rcases p with ⟨p1, p2⟩
  simp only [neighboursOf, List.mem_cons, List.mem_singleton, Prod.mk.injEq,
    List.not_mem_nil, or_false]
  omega

theorem heuristic_self (a : Pos) : heuristic a a = 0 := by
  rw [heuristic]
  simp

theorem heuristic_comm (a b : Pos) : heuristic a b = heuristic b a := by
  rw [heuristic, heuristic]
  omega

theorem heuristic_nbr_le (p q x : Pos) (h : q ∈ neighboursOf p) :
    heuristic p x ≤ heuristic q x + 1 := by
  rcases p with ⟨p1, p2⟩
  rcases q with ⟨q1, q2⟩
  simp only [neighboursOf, List.mem_cons, List.mem_singleton, Prod.mk.injEq,
    List.not_mem_nil, or_false] at h
  rw [heuristic, heuristic]
  omega

theorem heuristic_le_reach {w : WalkMap} {s g u : Pos} {n : Nat}
    (h : ReachIn w s g n u) : heuristic s u ≤ n := by
  induction h with
  | refl => rw [heuristic_self]
  | step h hadj hq ih =>
    rename_i n2 p q
    have h2 := heuristic_nbr_le q p s (neighboursOf_symm hadj)
    have hc1 := heuristic_comm s q
    have hc2 := heuristic_comm s p
    omega

/-- Along any walkable chain ending at a walkable goal, every visited cell
is the start or walkable. -/
theorem reach_cells_walkable {w : WalkMap} {s g u : Pos} {n : Nat}
    (hg : w.walkable g = true) (h : ReachIn w s g n u) :
    u = s ∨ w.walkable u = true := by
  cases h with
  | refl => exact Or.inl rfl
  | step h hadj hq =>
    rcases hq with hq | hq
    · exact Or.inr hq
    · exact Or.inr (hq ▸ hg)

/-- Chain reversal when both endpoints are walkable: a walkable chain from
`a` to `u` yields a chain from `u` back to `a` of the same length. -/
theorem reach_rev {w : WalkMap} {a b u : Pos} {n : Nat}
    (hwb : w.walkable b = true)
    (h : ReachIn w a b n u) : ReachIn w u a n a := by
  induction h with
  | refl => exact ReachIn.refl
  | step h hadj hq ih =>
    rename_i n p q
    have hp : p = a ∨ w.walkable p = true := reach_cells_walkable hwb h
    have hone : ReachIn w q a 1 p := by
      apply ReachIn.step ReachIn.refl (neighboursOf_symm hadj)
      rcases hp with hp | hp
      · exact Or.inr hp
      · exact Or.inl hp
    have := reach_trans hone ih
    rw [Nat.add_comm] at this
    exact this

/-- Symmetry of the graph distance between two walkable cells. -/
theorem distTo_symm {w : WalkMap} {a b : Pos}
    (hwa : w.walkable a = true) (hwb : w.walkable b = true)
    (hr : Reachable w a b) :
    Reachable w b a ∧ distTo w b a a = distTo w a b b := by
  rcases hr with ⟨n, hn⟩
  have hrev : ReachIn w b a n a := reach_rev hwb hn
  refine ⟨⟨n, hrev⟩, ?_⟩
  apply Nat.le_antisymm
  · exact distTo_le (reach_rev hwb (reach_distTo ⟨n, hn⟩))
  · exact distTo_le (reach_rev hwa (reach_distTo ⟨n, hrev⟩))

end Warehouse

namespace Warehouse

/-- All cells the search can ever record: the in-bounds rectangle plus the
(possibly out-of-bounds) start and goal. -/
def cellUniv (w : WalkMap) (start goal : Pos) : Finset Pos :=
  ((Finset.Icc (0:ℤ) (w.rows - 1)) ×ˢ (Finset.Icc (0:ℤ) (w.cols - 1))) ∪ {start, goal}

theorem start_mem_univ (w : WalkMap) (start goal : Pos) :
    start ∈ cellUniv w start goal := by
  rw [cellUniv]
  apply Finset.mem_union_right
  simp

theorem goal_mem_univ (w : WalkMap) (start goal : Pos) :
    goal ∈ cellUniv w start goal := by
  rw [cellUniv]
  apply Finset.mem_union_right
  simp

theorem walkable_mem_univ (w : WalkMap) (start goal : Pos) {p : Pos}
    (h : w.walkable p = true) : p ∈ cellUniv w start goal := by
  rw [cellUniv]
  apply Finset.mem_union_left
  rcases w.bounded p h with ⟨h1, h2, h3, h4⟩
  rw [Finset.mem_product]
  constructor
  · rw [Finset.mem_Icc]; omega
  · rw [Finset.mem_Icc]; omega

theorem card_univ_le (w : WalkMap) (start goal : Pos) :
    (cellUniv w start goal).card ≤ w.rows.toNat * w.cols.toNat + 2 := by
  rw [cellUniv]
  calc (((Finset.Icc (0:ℤ) (w.rows - 1)) ×ˢ (Finset.Icc (0:ℤ) (w.cols - 1))) ∪
        {start, goal}).card
      ≤ ((Finset.Icc (0:ℤ) (w.rows - 1)) ×ˢ (Finset.Icc (0:ℤ) (w.cols - 1))).card
          + ({start, goal} : Finset Pos).card := Finset.card_union_le _ _
    _ ≤ w.rows.toNat * w.cols.toNat + 2 := by
        have h1 : (Finset.Icc (0:ℤ) (w.rows - 1)).card = w.rows.toNat := by
          rw [Int.card_Icc]
          omega
        have h2 : (Finset.Icc (0:ℤ) (w.cols - 1)).card = w.cols.toNat := by
          rw [Int.card_Icc]
          omega
        have h3 : ({start, goal} : Finset Pos).card ≤ 2 :=
          Finset.card_insert_le _ _ |>.trans (by simp)
        rw [Finset.card_product, h1, h2]
        omega

/-- The loop's termination potential: the sum over the search universe of
the recorded step values, with unrecorded cells charged the ceiling. -/
def phi (w : WalkMap) (start goal : Pos) (st : AStarState) : Nat :=
  (cellUniv w start goal).sum
    (fun u => (slookup st.steps_to u).getD ((cellUniv w start goal).card + 1))

/-- The loop's termination measure. -/
def measureM (w : WalkMap) (start goal : Pos) (st : AStarState) : Nat :=
  5 * phi w start goal st + st.open_set.length

/-- Case analysis of one `relaxNeighbour` call: either the state is
unchanged (skip or no improvement), or a strict improvement pushes. -/
theorem relaxNeighbour_cases (w : WalkMap) (goal cur : Pos) (cs : Nat)
    (st : AStarState) (nb : Pos) :
    (relaxNeighbour w goal cur cs st nb = st ∧
      ((nb ≠ goal ∧ w.walkable nb = false) ∨
        ∃ old, slookup st.steps_to nb = some old ∧ old ≤ cs + 1)) ∨
    ((w.walkable nb = true ∨ nb = goal) ∧
      (∀ old, slookup st.steps_to nb = some old → cs + 1 < old) ∧
      relaxNeighbour w goal cur cs st nb =
        { open_set := ⟨cs + 1 + heuristic nb goal, cs + 1, nb⟩ :: st.open_set
          came_from := (nb, cur) :: st.came_from
          steps_to := (nb, cs + 1) :: st.steps_to }) := by
  rw [relaxNeighbour]
  by_cases hg : nb ≠ goal ∧ w.walkable nb = false
  · rw [if_pos hg]
    exact Or.inl ⟨rfl, Or.inl hg⟩
  · rw [if_neg hg]
    have hcond : w.walkable nb = true ∨ nb = goal := by
      by_cases he : nb = goal
      · exact Or.inr he
      · left
        by_contra hw
        exact hg ⟨he, by simpa using hw⟩
    rcases hlook : slookup st.steps_to nb with _ | old
    · simp only [hlook]
      refine Or.inr ⟨hcond, ?_, rfl⟩
      intro o ho
      exact Option.noConfusion ho
    · simp only [hlook]
      by_cases himp : cs + 1 < old
      · rw [if_pos (by simpa using himp)]
        refine Or.inr ⟨hcond, ?_, rfl⟩
        intro o ho
        rw [Option.some.injEq] at ho
        omega
      · rw [if_neg (by simpa using himp)]
        exact Or.inl ⟨rfl, Or.inr ⟨old, rfl, by omega⟩⟩

end Warehouse

namespace Warehouse

/-- The full loop invariant of the A* search of `find_path`. -/
structure AStarInv (w : WalkMap) (start goal : Pos) (st : AStarState) : Prop where
  start0 : slookup st.steps_to start = some 0
  reachVal : ∀ u v, slookup st.steps_to u = some v → ReachIn w start goal v u
  heapFE : ∀ e ∈ st.open_set, e.f = e.steps + heuristic e.pos goal
  heapReach : ∀ e ∈ st.open_set, ReachIn w start goal e.steps e.pos
  heapDom : ∀ e ∈ st.open_set, ∃ v, slookup st.steps_to e.pos = some v ∧ v ≤ e.steps
  parentAdj : ∀ u p, slookup st.came_from u = some p →
      u ∈ neighboursOf p ∧ (w.walkable u = true ∨ u = goal)
  parentLt : ∀ u p, slookup st.came_from u = some p →
      ∃ vu vp, slookup st.steps_to u = some vu ∧ slookup st.steps_to p = some vp ∧
        vp < vu
  coverage : ∀ u v, slookup st.steps_to u = some v →
      u = start ∨ ∃ p, slookup st.came_from u = some p
  valB : ∀ u v, slookup st.steps_to u = some v → v + 1 ≤ numKeys st.steps_to
  heapB : ∀ e ∈ st.open_set, e.steps + 1 ≤ numKeys st.steps_to
  keysU : ∀ u v, slookup st.steps_to u = some v → u ∈ cellUniv w start goal

theorem inv_numKeys_le_card {w : WalkMap} {start goal : Pos} {st : AStarState}
    (hinv : AStarInv w start goal st) :
    numKeys st.steps_to ≤ (cellUniv w start goal).card := by
  apply numKeys_le_card
  intro q hq
  rcases slookup_key_some hq with ⟨v, hv⟩
  exact hinv.keysU q v hv

theorem relax_preserves (w : WalkMap) (start goal cur : Pos) (cs : Nat)
    (st : AStarState) (nb : Pos)
    (hinv : AStarInv w start goal st)
    (hnb : nb ∈ neighboursOf cur)
    (hcr : ReachIn w start goal cs cur)
    (hcd : ∃ v, slookup st.steps_to cur = some v ∧ v ≤ cs)
    (hcb : cs + 1 ≤ numKeys st.steps_to) :
    AStarInv w start goal (relaxNeighbour w goal cur cs st nb) ∧
    (∀ u v, slookup st.steps_to u = some v →
      ∃ v2, slookup (relaxNeighbour w goal cur cs st nb).steps_to u = some v2 ∧
        v2 ≤ v) ∧
    (∀ x ∈ st.open_set, x ∈ (relaxNeighbour w goal cur cs st nb).open_set) ∧
    (cs + 1 ≤ numKeys (relaxNeighbour w goal cur cs st nb).steps_to) ∧
    ((w.walkable nb = true ∨ nb = goal) →
      ∃ v, slookup (relaxNeighbour w goal cur cs st nb).steps_to nb = some v ∧
        v ≤ cs + 1) ∧
    (measureM w start goal (relaxNeighbour w goal cur cs st nb) ≤
      measureM w start goal st) := by
  have hcurne : cur ≠ nb := by
    intro h
    exact neighboursOf_not_self cur (h ▸ hnb)
  rcases relaxNeighbour_cases w goal cur cs st nb with ⟨heq, hskip⟩ |
    ⟨hcond, himp, heq⟩
  · -- no state change
    rw [heq]
    refine ⟨hinv, ?_, ?_, hcb, ?_, le_refl _⟩
    · intro u v hv; exact ⟨v, hv, le_refl v⟩
    · intro x hx; exact hx
    · intro hedge
      rcases hskip with ⟨hne, hnw⟩ | ⟨old, hold, hle⟩
      · rcases hedge with hedge | hedge
        · rw [hedge] at hnw; exact Bool.noConfusion hnw
        · exact absurd hedge hne
      · exact ⟨old, hold, hle⟩
  · -- push case
    rw [heq]
    have hlk : ∀ q, slookup ((nb, cs + 1) :: st.steps_to) q =
        if nb = q then some (cs + 1) else slookup st.steps_to q := by
      intro q; rfl
    have hcf : ∀ q, slookup ((nb, cur) :: st.came_from) q =
        if nb = q then some cur else slookup st.came_from q := by
      intro q; rfl
    have hnbU : nb ∈ cellUniv w start goal := by
      rcases hcond with hcond | hcond
      · exact walkable_mem_univ w start goal hcond
      · rw [hcond]; exact goal_mem_univ w start goal
    have hreachnb : ReachIn w start goal (cs + 1) nb := ReachIn.step hcr hnb hcond
    have hnkey : numKeys ((nb, cs + 1) :: st.steps_to) = numKeys st.steps_to ∨
        numKeys ((nb, cs + 1) :: st.steps_to) = numKeys st.steps_to + 1 := by
      by_cases hmem : nb ∈ st.steps_to.map Prod.fst
      · exact Or.inl (numKeys_cons_mem _ hmem)
      · exact Or.inr (numKeys_cons_not_mem _ hmem)
    have hnkey_ge : numKeys st.steps_to ≤ numKeys ((nb, cs + 1) :: st.steps_to) := by
      rcases hnkey with h | h
      · omega
      · omega
    have hvalnb : cs + 1 + 1 ≤ numKeys ((nb, cs + 1) :: st.steps_to) := by
      by_cases hmem : nb ∈ st.steps_to.map Prod.fst
      · rcases slookup_key_some hmem with ⟨old, hold⟩
        have h1 := himp old hold
        have h2 := hinv.valB nb old hold
        rw [numKeys_cons_mem _ hmem]
        omega
      · rw [numKeys_cons_not_mem _ hmem]
        omega
    have hmono : ∀ u v, slookup st.steps_to u = some v →
        ∃ v2, slookup ((nb, cs + 1) :: st.steps_to) u = some v2 ∧ v2 ≤ v := by
      intro u v hv
      rw [hlk]
      by_cases hq : nb = u
      · rw [if_pos hq]
        refine ⟨cs + 1, rfl, ?_⟩
        have := himp v (hq ▸ hv)
        omega
      · rw [if_neg hq]
        exact ⟨v, hv, le_refl v⟩
    have hstart_ne : nb ≠ start := by
      intro h
      have := himp 0 (h ▸ hinv.start0)
      omega
    refine ⟨?_, hmono, ?_, le_trans hcb hnkey_ge, ?_, ?_⟩
    · constructor
      -- start0
      case start0 =>
        rw [hlk, if_neg hstart_ne]
        exact hinv.start0
      -- reachVal
      case reachVal =>
        intro u v hv
        rw [hlk] at hv
        by_cases hq : nb = u
        · rw [if_pos hq, Option.some.injEq] at hv
          rw [← hq, ← hv]
          exact hreachnb
        · rw [if_neg hq] at hv
          exact hinv.reachVal u v hv
      -- heapFE
      case heapFE =>
        intro e he
        rcases List.mem_cons.mp he with he | he
        · rw [he]
        · exact hinv.heapFE e he
      -- heapReach
      case heapReach =>
        intro e he
        rcases List.mem_cons.mp he with he | he
        · rw [he]
          exact hreachnb
        · exact hinv.heapReach e he
      -- heapDom
      case heapDom =>
        intro e he
        rcases List.mem_cons.mp he with he | he
        · rw [he, hlk]
          simp only [if_pos rfl]
          exact ⟨cs + 1, rfl, le_refl _⟩
        · rcases hinv.heapDom e he with ⟨v, hv, hvle⟩
          rcases hmono e.pos v hv with ⟨v2, hv2, hv2le⟩
          exact ⟨v2, hv2, le_trans hv2le hvle⟩
      -- parentAdj
      case parentAdj =>
        intro u p hp
        rw [hcf] at hp
        by_cases hq : nb = u
        · rw [if_pos hq, Option.some.injEq] at hp
          rw [← hq, ← hp]
          exact ⟨hnb, hcond⟩
        · rw [if_neg hq] at hp
          exact hinv.parentAdj u p hp
      -- parentLt
      case parentLt =>
        intro u p hp
        rw [hcf] at hp
        by_cases hq : nb = u
        · rw [if_pos hq, Option.some.injEq] at hp
          rcases hcd with ⟨vc, hvc, hvcle⟩
          refine ⟨cs + 1, vc, ?_, ?_, by omega⟩
          · rw [hlk, if_pos hq]
          · rw [hlk p, ← hp, if_neg (fun h => hcurne h.symm)]
            exact hvc
        · rw [if_neg hq] at hp
          rcases hinv.parentLt u p hp with ⟨vu, vp, hvu, hvp, hlt⟩
          by_cases hqp : nb = p
          · refine ⟨vu, cs + 1, ?_, ?_, ?_⟩
            · rw [hlk u, if_neg hq]
              exact hvu
            · rw [hlk p, if_pos hqp]
            · have := himp vp (hqp ▸ hvp)
              omega
          · refine ⟨vu, vp, ?_, ?_, hlt⟩
            · rw [hlk u, if_neg hq]
              exact hvu
            · rw [hlk p, if_neg hqp]
              exact hvp
      case coverage =>
        intro u v hv
        rw [hlk u] at hv
        by_cases hq : nb = u
        · refine Or.inr ⟨cur, ?_⟩
          rw [hcf u, if_pos hq]
        · rw [if_neg hq] at hv
          rcases hinv.coverage u v hv with h | ⟨p, hp⟩
          · exact Or.inl h
          · refine Or.inr ⟨p, ?_⟩
            rw [hcf u, if_neg hq]
            exact hp
      case valB =>
        intro u v hv
        rw [hlk u] at hv
        by_cases hq : nb = u
        · rw [if_pos hq, Option.some.injEq] at hv
          rw [← hv]
          exact hvalnb
        · rw [if_neg hq] at hv
          have := hinv.valB u v hv
          show v + 1 ≤ numKeys ((nb, cs + 1) :: st.steps_to)
          omega
      case heapB =>
        intro e he
        rcases List.mem_cons.mp he with he | he
        · rw [he]
          exact hvalnb
        · have := hinv.heapB e he
          show e.steps + 1 ≤ numKeys ((nb, cs + 1) :: st.steps_to)
          omega
      case keysU =>
        intro u v hv
        rw [hlk u] at hv
        by_cases hq : nb = u
        · rw [← hq]
          exact hnbU
        · rw [if_neg hq] at hv
          exact hinv.keysU u v hv
    · intro x hx
      exact List.mem_cons_of_mem _ hx
    · intro _
      rw [hlk, if_pos rfl]
      exact ⟨cs + 1, rfl, le_refl _⟩
    · -- the measure does not increase: the push strictly decreases phi
      have hcard : numKeys st.steps_to ≤ (cellUniv w start goal).card :=
        inv_numKeys_le_card hinv
      have hphi : phi w start goal
          { open_set := ⟨cs + 1 + heuristic nb goal, cs + 1, nb⟩ :: st.open_set
            came_from := (nb, cur) :: st.came_from
            steps_to := (nb, cs + 1) :: st.steps_to } < phi w start goal st := by
        rw [phi, phi]
        apply Finset.sum_lt_sum
        · intro u hu
          simp only
          rw [hlk u]
          by_cases hq : nb = u
          · rw [if_pos hq]
            rcases hold : slookup st.steps_to u with _ | old
            · simp only [Option.getD]
              omega
            · have := himp old (hq ▸ hold)
              simp only [Option.getD]
              omega
          · rw [if_neg hq]
        · refine ⟨nb, hnbU, ?_⟩
          simp only
          rw [hlk nb, if_pos rfl]
          rcases hold : slookup st.steps_to nb with _ | old
          · simp only [Option.getD]
            omega
          · have := himp old hold
            simp only [Option.getD]
            omega
      rw [measureM, measureM]
      simp only [List.length_cons]
      omega

end Warehouse

namespace Warehouse

theorem relaxList_preserves (w : WalkMap) (start goal cur : Pos) (cs : Nat)
    (nbs : List Pos) (st : AStarState)
    (hinv : AStarInv w start goal st)
    (hnbs : ∀ nb ∈ nbs, nb ∈ neighboursOf cur)
    (hcr : ReachIn w start goal cs cur)
    (hcd : ∃ v, slookup st.steps_to cur = some v ∧ v ≤ cs)
    (hcb : cs + 1 ≤ numKeys st.steps_to) :
    AStarInv w start goal (nbs.foldl (relaxNeighbour w goal cur cs) st) ∧
    (∀ u v, slookup st.steps_to u = some v →
      ∃ v2, slookup (nbs.foldl (relaxNeighbour w goal cur cs) st).steps_to u =
        some v2 ∧ v2 ≤ v) ∧
    (∀ x ∈ st.open_set, x ∈ (nbs.foldl (relaxNeighbour w goal cur cs) st).open_set) ∧
    (∀ nb ∈ nbs, (w.walkable nb = true ∨ nb = goal) →
      ∃ v, slookup (nbs.foldl (relaxNeighbour w goal cur cs) st).steps_to nb =
        some v ∧ v ≤ cs + 1) ∧
    (measureM w start goal (nbs.foldl (relaxNeighbour w goal cur cs) st) ≤
      measureM w start goal st) := by
  induction nbs generalizing st with
  | nil =>
    refine ⟨hinv, ?_, ?_, ?_, le_refl _⟩
    · intro u v hv; exact ⟨v, hv, le_refl v⟩
    · intro x hx; exact hx
    · intro nb hnb; exact absurd hnb (List.not_mem_nil nb)
  | cons nb rest ih =>
    have hnbh : nb ∈ neighboursOf cur := hnbs nb (List.mem_cons_self _ _)
    rcases relax_preserves w start goal cur cs st nb hinv hnbh hcr hcd hcb with
      ⟨hinv1, hmono1, hsup1, hcb1, hnb1, hm1⟩
    have hcd1 : ∃ v, slookup (relaxNeighbour w goal cur cs st nb).steps_to cur =
        some v ∧ v ≤ cs := by
      rcases hcd with ⟨v, hv, hvle⟩
      rcases hmono1 cur v hv with ⟨v2, hv2, hle2⟩
      exact ⟨v2, hv2, le_trans hle2 hvle⟩
    rcases ih (relaxNeighbour w goal cur cs st nb) hinv1
      (fun x hx => hnbs x (List.mem_cons_of_mem _ hx)) hcd1 hcb1 with
      ⟨hinv2, hmono2, hsup2, hnb2, hm2⟩
    rw [List.foldl_cons]
    refine ⟨hinv2, ?_, ?_, ?_, le_trans hm2 hm1⟩
    · intro u v hv
      rcases hmono1 u v hv with ⟨v2, hv2, hle2⟩
      rcases hmono2 u v2 hv2 with ⟨v3, hv3, hle3⟩
      exact ⟨v3, hv3, le_trans hle3 hle2⟩
    · intro x hx
      exact hsup2 x (hsup1 x hx)
    · intro q hq hcondq
      rcases List.mem_cons.mp hq with hq2 | hq2
      · subst hq2
        rcases hnb1 hcondq with ⟨v, hv, hvle⟩
        rcases hmono2 q v hv with ⟨v2, hv2, hle2⟩
        exact ⟨v2, hv2, le_trans hle2 hvle⟩
      · exact hnb2 q hq2 hcondq

end Warehouse

namespace Warehouse

/-- The optimality promise for cell `u`: while `u` is recorded at its true
distance, either its fresh queue entry is still in the heap, or `u` has
already been expanded and all its edge-neighbours are recorded within
`distTo u + 1`. -/
def PromiseAt (w : WalkMap) (start goal : Pos) (st : AStarState) (u : Pos) : Prop :=
  slookup st.steps_to u = some (distTo w start goal u) →
    ((⟨distTo w start goal u + heuristic u goal, distTo w start goal u, u⟩ : Entry)
        ∈ st.open_set ∨
      ∀ nb ∈ neighboursOf u, (w.walkable nb = true ∨ nb = goal) →
        ∃ vnb, slookup st.steps_to nb = some vnb ∧
          vnb ≤ distTo w start goal u + 1)

/-- While the goal is recorded, some heap entry for the goal remains (its
pop would have ended the loop). -/
def GoalEntryP (goal : Pos) (st : AStarState) : Prop :=
  ∀ v, slookup st.steps_to goal = some v → ∃ e ∈ st.open_set, e.pos = goal

theorem relax_mono (w : WalkMap) (goal cur : Pos) (cs : Nat) (st : AStarState)
    (nb : Pos) :
    ∀ u v, slookup st.steps_to u = some v →
      ∃ v2, slookup (relaxNeighbour w goal cur cs st nb).steps_to u = some v2 ∧
        v2 ≤ v := by
  rcases relaxNeighbour_cases w goal cur cs st nb with ⟨heq, _⟩ | ⟨_, himp, heq⟩
  · rw [heq]
    intro u v hv
    exact ⟨v, hv, le_refl v⟩
  · rw [heq]
    intro u v hv
    rw [slookup_cons]
    by_cases hq : nb = u
    · rw [if_pos hq]
      have := himp v (hq ▸ hv)
      exact ⟨cs + 1, rfl, by omega⟩
    · rw [if_neg hq]
      exact ⟨v, hv, le_refl v⟩

theorem relax_sup (w : WalkMap) (goal cur : Pos) (cs : Nat) (st : AStarState)
    (nb : Pos) :
    ∀ x ∈ st.open_set, x ∈ (relaxNeighbour w goal cur cs st nb).open_set := by
  rcases relaxNeighbour_cases w goal cur cs st nb with ⟨heq, _⟩ | ⟨_, _, heq⟩
  · rw [heq]; intro x hx; exact hx
  · rw [heq]; intro x hx; exact List.mem_cons_of_mem _ hx

theorem relax_promiseAt (w : WalkMap) (start goal cur : Pos) (cs : Nat)
    (st : AStarState) (nb : Pos) (x : Pos)
    (hP : ∀ u, u ≠ x → PromiseAt w start goal st u) :
    ∀ u, u ≠ x → PromiseAt w start goal (relaxNeighbour w goal cur cs st nb) u := by
  rcases relaxNeighbour_cases w goal cur cs st nb with ⟨heq, _⟩ | ⟨_, himp, heq⟩
  · rw [heq]; exact hP
  · intro u hux hu
    rw [heq] at hu
    rw [heq]
    rw [slookup_cons] at hu
    by_cases hq : nb = u
    · subst hq
      rw [if_pos rfl, Option.some.injEq] at hu
      left
      rw [← hu]
      exact List.mem_cons_self _ _
    · rw [if_neg hq] at hu
      rcases hP u hux hu with hw | hnbr
      · exact Or.inl (List.mem_cons_of_mem _ hw)
      · right
        intro nbu hnbu hcondu
        rcases hnbr nbu hnbu hcondu with ⟨vn, hvn, hvnle⟩
        rw [slookup_cons]
        by_cases hq2 : nb = nbu
        · rw [if_pos hq2]
          have := himp vn (hq2 ▸ hvn)
          exact ⟨cs + 1, rfl, by omega⟩
        · rw [if_neg hq2]
          exact ⟨vn, hvn, hvnle⟩

theorem relax_goalEntry (w : WalkMap) (goal cur : Pos) (cs : Nat)
    (st : AStarState) (nb : Pos)
    (hG : GoalEntryP goal st) :
    GoalEntryP goal (relaxNeighbour w goal cur cs st nb) := by
  rcases relaxNeighbour_cases w goal cur cs st nb with ⟨heq, _⟩ | ⟨_, _, heq⟩
  · rw [heq]; exact hG
  · rw [heq]
    intro v hv
    by_cases hq : nb = goal
    · exact ⟨⟨cs + 1 + heuristic nb goal, cs + 1, nb⟩, List.mem_cons_self _ _, hq⟩
    · rw [slookup_cons, if_neg hq] at hv
      rcases hG v hv with ⟨e, he, hpos⟩
      exact ⟨e, List.mem_cons_of_mem _ he, hpos⟩

theorem foldRelax_mono (w : WalkMap) (goal cur : Pos) (cs : Nat)
    (nbs : List Pos) (st : AStarState) :
    ∀ u v, slookup st.steps_to u = some v →
      ∃ v2, slookup ((nbs.foldl (relaxNeighbour w goal cur cs) st)).steps_to u =
        some v2 ∧ v2 ≤ v := by
  induction nbs generalizing st with
  | nil => intro u v hv; exact ⟨v, hv, le_refl v⟩
  | cons nb rest ih =>
    intro u v hv
    rcases relax_mono w goal cur cs st nb u v hv with ⟨v2, hv2, hle2⟩
    rcases ih (relaxNeighbour w goal cur cs st nb) u v2 hv2 with ⟨v3, hv3, hle3⟩
    exact ⟨v3, hv3, le_trans hle3 hle2⟩

theorem foldRelax_sup (w : WalkMap) (goal cur : Pos) (cs : Nat)
    (nbs : List Pos) (st : AStarState) :
    ∀ x ∈ st.open_set, x ∈ ((nbs.foldl (relaxNeighbour w goal cur cs) st)).open_set := by
  induction nbs generalizing st with
  | nil => intro x hx; exact hx
  | cons nb rest ih =>
    intro x hx
    exact ih (relaxNeighbour w goal cur cs st nb) x (relax_sup w goal cur cs st nb x hx)

theorem foldRelax_promiseAt (w : WalkMap) (start goal cur : Pos) (cs : Nat)
    (nbs : List Pos) (st : AStarState) (x : Pos)
    (hP : ∀ u, u ≠ x → PromiseAt w start goal st u) :
    ∀ u, u ≠ x →
      PromiseAt w start goal (nbs.foldl (relaxNeighbour w goal cur cs) st) u := by
  induction nbs generalizing st with
  | nil => exact hP
  | cons nb rest ih =>
    exact ih (relaxNeighbour w goal cur cs st nb)
      (relax_promiseAt w start goal cur cs st nb x hP)

theorem foldRelax_goalEntry (w : WalkMap) (goal cur : Pos) (cs : Nat)
    (nbs : List Pos) (st : AStarState)
    (hG : GoalEntryP goal st) :
    GoalEntryP goal (nbs.foldl (relaxNeighbour w goal cur cs) st) := by
  induction nbs generalizing st with
  | nil => exact hG
  | cons nb rest ih =>
    exact ih (relaxNeighbour w goal cur cs st nb)
      (relax_goalEntry w goal cur cs st nb hG)

end Warehouse

namespace Warehouse

/-- Along any shortest chain, either the endpoint is already recorded at its
distance, or the heap holds a fresh optimal entry whose key is no larger
than the endpoint's `f`-value (the classical A* frontier argument, using
the consistency of the Manhattan heuristic). -/
theorem astar_progress (w : WalkMap) (start goal : Pos) (st : AStarState)
    (hinv : AStarInv w start goal st)
    (hP : ∀ u, PromiseAt w start goal st u) :
    ∀ n u, ReachIn w start goal n u → distTo w start goal u = n →
      slookup st.steps_to u = some (distTo w start goal u) ∨
      ∃ e ∈ st.open_set, slookup st.steps_to e.pos = some e.steps ∧
        e.steps = distTo w start goal e.pos ∧
        e.f = e.steps + heuristic e.pos goal ∧
        e.f ≤ distTo w start goal u + heuristic u goal := by
  intro n
  induction n with
  | zero =>
    intro u hu hd
    have hus : u = start := reach_zero hu
    subst hus
    left
    rw [hd]
    exact hinv.start0
  | succ n ih =>
    intro u hu hd
    cases hu with
    | step hp hadj hcond =>
      rename_i p
      have hdp_le : distTo w start goal p ≤ n := distTo_le hp
      have hdu_le : distTo w start goal u ≤ distTo w start goal p + 1 :=
        distTo_le (ReachIn.step (reach_distTo ⟨n, hp⟩) hadj hcond)
      have hdp : distTo w start goal p = n := by omega
      have hheur : heuristic p goal ≤ heuristic u goal + 1 :=
        heuristic_nbr_le p u goal hadj
      rcases ih p hp hdp with hrec | ⟨e, he, hrec2, hd2, hf2, hle2⟩
      · rcases hP p hrec with hw | hnbr
        · right
          refine ⟨_, hw, hrec, rfl, rfl, ?_⟩
          simp only
          omega
        · rcases hnbr u hadj hcond with ⟨vu, hvu, hvule⟩
          left
          have hge : distTo w start goal u ≤ vu := distTo_le (hinv.reachVal u vu hvu)
          have : vu = distTo w start goal u := by omega
          rw [← this]
          exact hvu
      · right
        refine ⟨e, he, hrec2, hd2, hf2, ?_⟩
        omega

/-- The fold of `relaxNeighbour` leaves the record of a cell outside the
relaxed list unchanged. -/
theorem foldRelax_lookup_eq (w : WalkMap) (goal cur : Pos) (cs : Nat)
    (nbs : List Pos) (st : AStarState) (x : Pos) (hx : x ∉ nbs) :
    slookup ((nbs.foldl (relaxNeighbour w goal cur cs) st)).steps_to x =
      slookup st.steps_to x := by
  induction nbs generalizing st with
  | nil => rfl
  | cons nb rest ih =>
    have hxr : x ∉ rest := fun h => hx (List.mem_cons_of_mem _ h)
    have hxnb : nb ≠ x := fun h => hx (h ▸ List.mem_cons_self _ _)
    rw [List.foldl_cons, ih _ hxr]
    rcases relaxNeighbour_cases w goal cur cs st nb with ⟨heq, _⟩ | ⟨_, _, heq⟩
    · rw [heq]
    · rw [heq]
      simp only
      rw [slookup_cons, if_neg hxnb]

theorem numKeys_steps_le_came (w : WalkMap) (start goal : Pos) {st : AStarState}
    (hinv : AStarInv w start goal st) :
    numKeys st.steps_to ≤ numKeys st.came_from + 1 := by
  rw [numKeys, numKeys, ← List.card_toFinset, ← List.card_toFinset]
  have hsub : (st.steps_to.map Prod.fst).toFinset ⊆
      insert start (st.came_from.map Prod.fst).toFinset := by
    intro q hq
    rcases slookup_key_some (List.mem_toFinset.mp hq) with ⟨v, hv⟩
    rcases hinv.coverage q v hv with h | ⟨p, hp⟩
    · rw [h]; exact Finset.mem_insert_self _ _
    · exact Finset.mem_insert_of_mem (List.mem_toFinset.mpr (slookup_mem_keys hp))
  calc (st.steps_to.map Prod.fst).toFinset.card
      ≤ (insert start (st.came_from.map Prod.fst).toFinset).card :=
        Finset.card_le_card hsub
    _ ≤ (st.came_from.map Prod.fst).toFinset.card + 1 := Finset.card_insert_le _ _

theorem numKeys_le_length {α : Type} (l : List (Pos × α)) : numKeys l ≤ l.length := by
  rw [numKeys]
  calc (l.map Prod.fst).dedup.length ≤ (l.map Prod.fst).length :=
        (l.map Prod.fst).dedup_sublist.length_le
    _ = l.length := List.length_map _ _

theorem head_append_ne {l l2 : List Pos} (h : l ≠ []) :
    (l ++ l2).head? = l.head? := by
  cases l with
  | nil => exact absurd rfl h
  | cons a t => rfl

theorem buildPathAux_spec (w : WalkMap) (start goal : Pos) (st : AStarState)
    (hinv : AStarInv w start goal st) :
    ∀ v cur acc fuel, slookup st.steps_to cur = some v → v < fuel →
      ∃ pre, buildPathAux fuel st.came_from cur acc = pre ++ acc ∧
        pre.length ≤ v ∧ ReachIn w start goal pre.length cur ∧
        (pre = [] → cur = start) ∧ (pre ≠ [] → pre.head? = some start) := by
  intro v
  induction v using Nat.strong_induction_on with
  | _ v ihv =>
    intro cur acc fuel hv hfuel
    cases fuel with
    | zero => omega
    | succ f =>
      rcases hcf : slookup st.came_from cur with _ | p
      · -- no parent: by coverage the chain has ended at the start
        have hred : buildPathAux (f + 1) st.came_from cur acc = acc := by
          rw [buildPathAux, hcf]
        rw [hred]
        refine ⟨[], by simp, by simp, ?_, ?_, by simp⟩
        · rcases hinv.coverage cur v hv with h | ⟨p, hp⟩
          · rw [h]; exact ReachIn.refl
          · rw [hp] at hcf; exact Option.noConfusion hcf
        · intro _
          rcases hinv.coverage cur v hv with h | ⟨p, hp⟩
          · exact h
          · rw [hp] at hcf; exact Option.noConfusion hcf
      · have hred : buildPathAux (f + 1) st.came_from cur acc =
            buildPathAux f st.came_from p (p :: acc) := by
          rw [buildPathAux, hcf]
        rw [hred]
        rcases hinv.parentLt cur p hcf with ⟨vu, vp, hvu, hvp, hlt⟩
        have hvv : vu = v := by
          rw [hv] at hvu
          exact (Option.some.inj hvu).symm
        rcases ihv vp (by omega) p (p :: acc) f hvp (by omega) with
          ⟨pre2, heq2, hlen2, hreach2, hnil2, hhead2⟩
        refine ⟨pre2 ++ [p], ?_, ?_, ?_, ?_, ?_⟩
        · rw [heq2, List.append_assoc, List.singleton_append]
        · rw [List.length_append, List.length_singleton]
          omega
        · rw [List.length_append, List.length_singleton]
          rcases hinv.parentAdj cur p hcf with ⟨hadj, hcond⟩
          exact ReachIn.step hreach2 hadj hcond
        · intro h
          exact absurd h (by simp)
        · intro _
          by_cases h2 : pre2 = []
          · rw [h2, List.nil_append, List.head?]
            rw [hnil2 h2]
          · rw [head_append_ne h2]
            exact hhead2 h2

theorem buildPath_spec (w : WalkMap) (start goal : Pos) (st : AStarState)
    (hinv : AStarInv w start goal st) {v : Nat} {cur : Pos}
    (hv : slookup st.steps_to cur = some v) :
    ∃ pre, buildPath st.came_from cur = pre ++ [cur] ∧
      pre.length ≤ v ∧ ReachIn w start goal pre.length cur ∧
      (pre = [] → cur = start) ∧ (pre ≠ [] → pre.head? = some start) := by
  have hb1 : v + 1 ≤ numKeys st.steps_to := hinv.valB cur v hv
  have hb2 := numKeys_steps_le_came w start goal hinv
  have hb3 := numKeys_le_length st.came_from
  exact buildPathAux_spec w start goal st hinv v cur [cur]
    (st.came_from.length + 1) hv (by omega)

end Warehouse

namespace Warehouse

/-- Main loop theorem: under the invariants, with fuel above the measure,
the loop returns an optimal start-to-goal path when the goal is reachable
and `[]` when it is not. -/
theorem astarLoop_spec (w : WalkMap) (start goal : Pos) (hsg : start ≠ goal) :
    ∀ fuel st, AStarInv w start goal st → (∀ u, PromiseAt w start goal st u) →
      GoalEntryP goal st → measureM w start goal st < fuel →
      ((Reachable w start goal →
        ∃ L, astarLoop w goal fuel st = L ∧
          L.length = distTo w start goal goal + 1 ∧
          L.head? = some start ∧ L.getLast? = some goal) ∧
      (¬ Reachable w start goal → astarLoop w goal fuel st = [])) := by
  intro fuel
  induction fuel using Nat.strong_induction_on with
  | _ fuel ih =>
    intro st hinv hP hG hM
    cases fuel with
    | zero => omega
    | succ f =>
      rcases hpop : popMin st.open_set with _ | ⟨e, rest⟩
      · -- heap exhausted: the goal was never recorded, so it is unreachable
        have hempty : st.open_set = [] := popMin_none.mp hpop
        have hres : astarLoop w goal (f + 1) st = [] := by
          simp only [astarLoop, hpop]
        constructor
        · intro hreach
          exfalso
          rcases astar_progress w start goal st hinv hP _ goal
            (reach_distTo hreach) rfl with hrec | ⟨e2, he2, _⟩
          · rcases hG _ hrec with ⟨e2, he2, _⟩
            rw [hempty] at he2
            exact absurd he2 (List.not_mem_nil e2)
          · rw [hempty] at he2
            exact absurd he2 (List.not_mem_nil e2)
        · intro _; exact hres
      · have hemem : e ∈ st.open_set := popMin_mem hpop
        by_cases hpos : e.pos = goal
        · -- goal popped: the built path is optimal
          have hres : astarLoop w goal (f + 1) st = buildPath st.came_from e.pos := by
            simp only [astarLoop, hpop]
            rw [if_pos hpos]
          have hreach : Reachable w start goal :=
            ⟨e.steps, hpos ▸ hinv.heapReach e hemem⟩
          have hgoalrec : slookup st.steps_to goal =
              some (distTo w start goal goal) := by
            rcases astar_progress w start goal st hinv hP _ goal
              (reach_distTo hreach) rfl with hrec | ⟨e2, he2, hrec2, hd2, hf2, hle2⟩
            · exact hrec
            · have hefle : e.f ≤ e2.f := by
                rcases List.mem_cons.mp ((popMin_perm hpop).mem_iff.mp he2) with
                  h2 | h2
                · rw [h2]
                · exact entryLtb_false_f_le (popMin_min hpop e2 h2)
              have hfe := hinv.heapFE e hemem
              have hf0 : e.f = e.steps := by
                rw [hfe, hpos, heuristic_self]
                omega
              rw [heuristic_self] at hle2
              rcases hinv.heapDom e hemem with ⟨v, hv, hvle⟩
              rw [hpos] at hv
              have hvd : distTo w start goal goal ≤ v :=
                distTo_le (hinv.reachVal goal v hv)
              have hveq : v = distTo w start goal goal := by omega
              rw [← hveq]
              exact hv
          have hgoalrec2 : slookup st.steps_to e.pos =
              some (distTo w start goal goal) := by
            rw [hpos]; exact hgoalrec
          rcases buildPath_spec w start goal st hinv hgoalrec2 with
            ⟨pre, heqL, hlen, hreachL, hnil, hhead⟩
          have hprene : pre ≠ [] := by
            intro h
            exact hsg ((hnil h).symm.trans hpos)
          have hlenge : distTo w start goal goal ≤ pre.length :=
            distTo_le (hpos ▸ hreachL)
          have hleneq : pre.length = distTo w start goal goal := by omega
          constructor
          · intro _
            refine ⟨buildPath st.came_from e.pos, hres, ?_, ?_, ?_⟩
            · rw [heqL, List.length_append, List.length_singleton, hleneq]
            · rw [heqL, head_append_ne hprene]
              exact hhead hprene
            · rw [heqL, List.getLast?_concat, hpos]
          · intro h
            exact absurd hreach h
        · -- a non-goal entry popped: expand it and recurse
          have hsub : ∀ x ∈ rest, x ∈ st.open_set := fun x hx =>
            (popMin_perm hpop).mem_iff.mpr (List.mem_cons_of_mem _ hx)
          have hinv1 : AStarInv w start goal
              ⟨rest, st.came_from, st.steps_to⟩ := by
            constructor
            case start0 => exact hinv.start0
            case reachVal => exact hinv.reachVal
            case heapFE => exact fun e2 he2 => hinv.heapFE e2 (hsub e2 he2)
            case heapReach => exact fun e2 he2 => hinv.heapReach e2 (hsub e2 he2)
            case heapDom => exact fun e2 he2 => hinv.heapDom e2 (hsub e2 he2)
            case parentAdj => exact hinv.parentAdj
            case parentLt => exact hinv.parentLt
            case coverage => exact hinv.coverage
            case valB => exact hinv.valB
            case heapB => exact fun e2 he2 => hinv.heapB e2 (hsub e2 he2)
            case keysU => exact hinv.keysU
          rcases relaxList_preserves w start goal e.pos e.steps
            (neighboursOf e.pos) ⟨rest, st.came_from, st.steps_to⟩ hinv1
            (fun x hx => hx) (hinv.heapReach e hemem) (hinv.heapDom e hemem)
            (hinv.heapB e hemem) with ⟨hinv2, hmono2, hsup2, hnb2, hm2⟩
          have hPx : ∀ u, u ≠ e.pos →
              PromiseAt w start goal ⟨rest, st.came_from, st.steps_to⟩ u := by
            intro u hne hrec
            rcases hP u hrec with hw | hnbr
            · left
              rcases List.mem_cons.mp ((popMin_perm hpop).mem_iff.mp hw) with
                h2 | h2
              · exfalso
                apply hne
                have := congrArg Entry.pos h2
                exact this
              · exact h2
            · exact Or.inr hnbr
          have hP1 := foldRelax_promiseAt w start goal e.pos e.steps
            (neighboursOf e.pos) ⟨rest, st.came_from, st.steps_to⟩ e.pos hPx
          have hPe : PromiseAt w start goal
              ((neighboursOf e.pos).foldl (relaxNeighbour w goal e.pos e.steps)
                ⟨rest, st.came_from, st.steps_to⟩) e.pos := by
            intro hrec2
            by_cases hfresh : e.steps = distTo w start goal e.pos
            · right
              intro nb hnb hcond
              rcases hnb2 nb hnb hcond with ⟨v, hv, hvle⟩
              exact ⟨v, hv, by rw [← hfresh]; exact hvle⟩
            · have huntouched := foldRelax_lookup_eq w goal e.pos e.steps
                (neighboursOf e.pos) ⟨rest, st.came_from, st.steps_to⟩ e.pos
                (neighboursOf_not_self e.pos)
              rw [huntouched] at hrec2
              rcases hP e.pos hrec2 with hw | hnbr
              · left
                apply hsup2
                rcases List.mem_cons.mp ((popMin_perm hpop).mem_iff.mp hw) with
                  h2 | h2
                · exfalso
                  apply hfresh
                  have := congrArg Entry.steps h2
                  exact this.symm
                · exact h2
              · right
                intro nb hnb hcond
                rcases hnbr nb hnb hcond with ⟨v, hv, hvle⟩
                rcases hmono2 nb v hv with ⟨v2, hv2, hle2⟩
                exact ⟨v2, hv2, le_trans hle2 hvle⟩
          have hPall : ∀ u, PromiseAt w start goal
              ((neighboursOf e.pos).foldl (relaxNeighbour w goal e.pos e.steps)
                ⟨rest, st.came_from, st.steps_to⟩) u := by
            intro u
            by_cases h : u = e.pos
            · rw [h]; exact hPe
            · exact hP1 u h
          have hG1 : GoalEntryP goal ⟨rest, st.came_from, st.steps_to⟩ := by
            intro v hv
            rcases hG v hv with ⟨e2, he2, hpos2⟩
            rcases List.mem_cons.mp ((popMin_perm hpop).mem_iff.mp he2) with
              h2 | h2
            · exfalso
              apply hpos
              rw [← hpos2, h2]
            · exact ⟨e2, h2, hpos2⟩
          have hGall := foldRelax_goalEntry w goal e.pos e.steps
            (neighboursOf e.pos) ⟨rest, st.came_from, st.steps_to⟩ hG1
          have hlen1 : st.open_set.length = rest.length + 1 := by
            have := (popMin_perm hpop).length_eq
            simpa using this
          have hm1 : measureM w start goal ⟨rest, st.came_from, st.steps_to⟩ + 1 =
              measureM w start goal st := by
            rw [measureM, measureM]
            have hphi : phi w start goal ⟨rest, st.came_from, st.steps_to⟩ =
                phi w start goal st := rfl
            rw [hphi]
            simp only
            omega
          have hMlt : measureM w start goal
              ((neighboursOf e.pos).foldl (relaxNeighbour w goal e.pos e.steps)
                ⟨rest, st.came_from, st.steps_to⟩) < f := by
            omega
          have hres : astarLoop w goal (f + 1) st =
              astarLoop w goal f
                ((neighboursOf e.pos).foldl (relaxNeighbour w goal e.pos e.steps)
                  ⟨rest, st.came_from, st.steps_to⟩) := by
            simp only [astarLoop, hpop]
            rw [if_neg hpos]
          rcases ih f (by omega) _ hinv2 hPall hGall hMlt with ⟨h1, h2⟩
          constructor
          · intro hreach
            rcases h1 hreach with ⟨L, hL, hlen2, hhead2, hlast2⟩
            exact ⟨L, hres.trans hL, hlen2, hhead2, hlast2⟩
          · intro hunreach
            rw [hres]
            exact h2 hunreach

end Warehouse

namespace Warehouse

theorem initial_inv (w : WalkMap) (start goal : Pos) :
    AStarInv w start goal
      ⟨[⟨heuristic start goal, 0, start⟩], [], [(start, 0)]⟩ := by
  constructor
  case start0 => rw [slookup_cons, if_pos rfl]
  case reachVal =>
    intro u v hv
    rw [slookup_cons] at hv
    by_cases hq : start = u
    · rw [if_pos hq, Option.some.injEq] at hv
      rw [← hq, ← hv]
      exact ReachIn.refl
    · rw [if_neg hq] at hv
      exact Option.noConfusion hv
  case heapFE =>
    intro e he
    rcases List.mem_cons.mp he with he | he
    · rw [he]
      simp
    · exact absurd he (List.not_mem_nil e)
  case heapReach =>
    intro e he
    rcases List.mem_cons.mp he with he | he
    · rw [he]
      exact ReachIn.refl
    · exact absurd he (List.not_mem_nil e)
  case heapDom =>
    intro e he
    rcases List.mem_cons.mp he with he | he
    · rw [he]
      exact ⟨0, by rw [slookup_cons, if_pos rfl], le_refl 0⟩
    · exact absurd he (List.not_mem_nil e)
  case parentAdj =>
    intro u p hp
    exact Option.noConfusion hp
  case parentLt =>
    intro u p hp
    exact Option.noConfusion hp
  case coverage =>
    intro u v hv
    rw [slookup_cons] at hv
    by_cases hq : start = u
    · exact Or.inl hq.symm
    · rw [if_neg hq] at hv
      exact Option.noConfusion hv
  case valB =>
    intro u v hv
    rw [slookup_cons] at hv
    by_cases hq : start = u
    · rw [if_pos hq, Option.some.injEq] at hv
      rw [← hv]
      simp [numKeys]
    · rw [if_neg hq] at hv
      exact Option.noConfusion hv
  case heapB =>
    intro e he
    rcases List.mem_cons.mp he with he | he
    · rw [he]
      simp [numKeys]
    · exact absurd he (List.not_mem_nil e)
  case keysU =>
    intro u v hv
    rw [slookup_cons] at hv
    by_cases hq : start = u
    · rw [← hq]
      exact start_mem_univ w start goal
    · rw [if_neg hq] at hv
      exact Option.noConfusion hv

theorem initial_promise (w : WalkMap) (start goal : Pos) :
    ∀ u, PromiseAt w start goal
      ⟨[⟨heuristic start goal, 0, start⟩], [], [(start, 0)]⟩ u := by
  intro u hu
  rw [slookup_cons] at hu
  by_cases hq : start = u
  · left
    rw [← hq]
    rw [← hq, if_pos rfl, Option.some.injEq] at hu
    rw [← hu]
    simp only [Nat.zero_add]
    exact List.mem_cons_self _ _
  · rw [if_neg hq] at hu
    exact Option.noConfusion hu

theorem initial_goalEntry (start goal : Pos) (hsg : start ≠ goal) :
    GoalEntryP goal ⟨[⟨heuristic start goal, 0, start⟩], [], [(start, 0)]⟩ := by
  intro v hv
  rw [slookup_cons, if_neg hsg] at hv
  exact Option.noConfusion hv

theorem initial_measure (w : WalkMap) (start goal : Pos) :
    measureM w start goal
      ⟨[⟨heuristic start goal, 0, start⟩], [], [(start, 0)]⟩ < astarFuel w := by
  rw [measureM, astarFuel]
  have hcard := card_univ_le w start goal
  have hphi : phi w start goal
      ⟨[⟨heuristic start goal, 0, start⟩], [], [(start, 0)]⟩ ≤
      (cellUniv w start goal).card * ((cellUniv w start goal).card + 1) := by
    rw [phi]
    have := Finset.sum_le_card_nsmul (cellUniv w start goal)
      (fun u => (slookup ([(start, 0)] : List (Pos × Nat)) u).getD
        ((cellUniv w start goal).card + 1))
      ((cellUniv w start goal).card + 1)
      (by
        intro x _
        show (slookup ([(start, 0)] : List (Pos × Nat)) x).getD
          ((cellUniv w start goal).card + 1) ≤ (cellUniv w start goal).card + 1
        rcases hl : slookup ([(start, 0)] : List (Pos × Nat)) x with _ | v
        · exact Nat.le_refl _
        · show v ≤ (cellUniv w start goal).card + 1
          rw [slookup_cons] at hl
          by_cases hq : start = x
          · rw [if_pos hq, Option.some.injEq] at hl
            omega
          · rw [if_neg hq] at hl
            exact Option.noConfusion hl)
    rw [smul_eq_mul] at this
    exact this
  have hmul : (cellUniv w start goal).card * ((cellUniv w start goal).card + 1) ≤
      (w.rows.toNat * w.cols.toNat + 2) * (w.rows.toNat * w.cols.toNat + 3) :=
    Nat.mul_le_mul hcard (by omega)
  have hmul2 : (w.rows.toNat * w.cols.toNat + 2) * (w.rows.toNat * w.cols.toNat + 3) ≤
      (w.rows.toNat * w.cols.toNat + 3) * (w.rows.toNat * w.cols.toNat + 3) :=
    Nat.mul_le_mul_right _ (by omega)
  have h5 : 5 * (w.rows.toNat * w.cols.toNat + 3) * (w.rows.toNat * w.cols.toNat + 3) =
      5 * ((w.rows.toNat * w.cols.toNat + 3) * (w.rows.toNat * w.cols.toNat + 3)) := by
    ring
  rw [h5]
  simp only [List.length_cons, List.length_nil]
  omega

/-- Full behavioural specification of `find_path`: the single-cell path for
`start = goal`; otherwise an optimal path when the goal is reachable and
`[]` when it is not. -/
theorem find_path_spec (w : WalkMap) (start goal : Pos) :
    (start = goal → find_path w start goal = [start]) ∧
    (start ≠ goal →
      (Reachable w start goal →
        ∃ L, find_path w start goal = L ∧
          L.length = distTo w start goal goal + 1 ∧
          L.head? = some start ∧ L.getLast? = some goal) ∧
      (¬ Reachable w start goal → find_path w start goal = [])) := by
  constructor
  · intro h
    rw [find_path, if_pos h]
  · intro hsg
    have hrun := astarLoop_spec w start goal hsg (astarFuel w)
      ⟨[⟨heuristic start goal, 0, start⟩], [], [(start, 0)]⟩
      (initial_inv w start goal) (initial_promise w start goal)
      (initial_goalEntry start goal hsg) (initial_measure w start goal)
    have heq : find_path w start goal =
        astarLoop w goal (astarFuel w)
          ⟨[⟨heuristic start goal, 0, start⟩], [], [(start, 0)]⟩ := by
      rw [find_path, if_neg hsg]
    constructor
    · intro hreach
      rcases hrun.1 hreach with ⟨L, hL, h1, h2, h3⟩
      exact ⟨L, heq.trans hL, h1, h2, h3⟩
    · intro hunreach
      rw [heq]
      exact hrun.2 hunreach

theorem find_path_empty_iff (w : WalkMap) (start goal : Pos) :
    find_path w start goal = [] ↔ ¬ Reachable w start goal := by
  by_cases hsg : start = goal
  · rw [(find_path_spec w start goal).1 hsg]
    constructor
    · intro h; exact absurd h (by simp)
    · intro h
      exfalso
      exact h ⟨0, hsg ▸ ReachIn.refl⟩
  · rcases (find_path_spec w start goal).2 hsg with ⟨h1, h2⟩
    constructor
    · intro h hreach
      rcases h1 hreach with ⟨L, hL, hlen, _, _⟩
      rw [h] at hL
      rw [← hL] at hlen
      simp at hlen
    · exact h2

theorem find_path_length (w : WalkMap) (start goal : Pos)
    (hreach : Reachable w start goal) :
    (find_path w start goal).length = distTo w start goal goal + 1 := by
  by_cases hsg : start = goal
  · rw [(find_path_spec w start goal).1 hsg]
    have : distTo w start goal goal = 0 :=
      Nat.le_antisymm (distTo_le (hsg ▸ ReachIn.refl)) (Nat.zero_le _)
    rw [this]
    rfl
  · rcases ((find_path_spec w start goal).2 hsg).1 hreach with ⟨L, hL, hlen, _, _⟩
    rw [hL]
    exact hlen

theorem find_path_head (w : WalkMap) (start goal : Pos)
    (hne : find_path w start goal ≠ []) :
    (find_path w start goal).head? = some start := by
  by_cases hsg : start = goal
  · rw [(find_path_spec w start goal).1 hsg]
    rfl
  · have hreach : Reachable w start goal := by
      by_contra h
      exact hne (((find_path_spec w start goal).2 hsg).2 h)
    rcases ((find_path_spec w start goal).2 hsg).1 hreach with ⟨L, hL, _, hh, _⟩
    rw [hL]
    exact hh

theorem find_path_last (w : WalkMap) (start goal : Pos)
    (hne : find_path w start goal ≠ []) :
    (find_path w start goal).getLast? = some goal := by
  by_cases hsg : start = goal
  · rw [(find_path_spec w start goal).1 hsg, hsg]
    rfl
  · have hreach : Reachable w start goal := by
      by_contra h
      exact hne (((find_path_spec w start goal).2 hsg).2 h)
    rcases ((find_path_spec w start goal).2 hsg).1 hreach with ⟨L, hL, _, _, hl⟩
    rw [hL]
    exact hl

end Warehouse

namespace Warehouse

/-- An obstacle-free grid: every in-bounds cell is walkable. -/
def fullWalk (rows cols : Int) : WalkMap where
  rows := rows
  cols := cols
  walkable := fun p => decide (0 ≤ p.1 ∧ p.1 < rows ∧ 0 ≤ p.2 ∧ p.2 < cols)
  bounded := by
    intro p h
    simpa using h

theorem heuristic_eq_zero {a b : Pos} (h : heuristic a b = 0) : a = b := by
  rcases a with ⟨a1, a2⟩
  rcases b with ⟨b1, b2⟩
  rw [heuristic] at h
  simp only [Prod.mk.injEq]
  omega

theorem mem_nb_up (x y : Int) : (x, y) ∈ neighboursOf (x - 1, y) := by
  have h : (x, y) = ((x - 1) + 1, y) := by
    rw [Prod.mk.injEq]
    exact ⟨by omega, rfl⟩
  rw [h]
  exact List.mem_cons_of_mem _ (List.mem_cons_self _ _)

theorem mem_nb_down (x y : Int) : (x, y) ∈ neighboursOf (x + 1, y) := by
  have h : (x, y) = ((x + 1) - 1, y) := by
    rw [Prod.mk.injEq]
    exact ⟨by omega, rfl⟩
  rw [h]
  exact List.mem_cons_self _ _

theorem mem_nb_left (x y : Int) : (x, y) ∈ neighboursOf (x, y - 1) := by
  have h : (x, y) = (x, (y - 1) + 1) := by
    rw [Prod.mk.injEq]
    exact ⟨rfl, by omega⟩
  rw [h]
  exact List.mem_cons_of_mem _ (List.mem_cons_of_mem _
    (List.mem_cons_of_mem _ (List.mem_cons_self _ _)))

theorem mem_nb_right (x y : Int) : (x, y) ∈ neighboursOf (x, y + 1) := by
  have h : (x, y) = (x, (y + 1) - 1) := by
    rw [Prod.mk.injEq]
    exact ⟨rfl, by omega⟩
  rw [h]
  exact List.mem_cons_of_mem _ (List.mem_cons_of_mem _ (List.mem_cons_self _ _))

theorem fullWalk_reach (rows cols : Int) (start goal : Pos)
    (hs1 : 0 ≤ start.1) (hs2 : start.1 < rows) (hs3 : 0 ≤ start.2)
    (hs4 : start.2 < cols) :
    ∀ n u, 0 ≤ u.1 → u.1 < rows → 0 ≤ u.2 → u.2 < cols →
      heuristic start u = n → ReachIn (fullWalk rows cols) start goal n u := by
  intro n
  induction n with
  | zero =>
    intro u _ _ _ _ hh
    rw [heuristic_eq_zero hh]
    exact ReachIn.refl
  | succ n ih =>
    intro u hu1 hu2 hu3 hu4 hh
    have hwu : (fullWalk rows cols).walkable u = true := by
      simp only [fullWalk, decide_eq_true_eq]
      exact ⟨hu1, hu2, hu3, hu4⟩
    rcases lt_trichotomy start.1 u.1 with hc | hc | hc
    · -- step down from (u.1 - 1, u.2)
      have hp := ih (u.1 - 1, u.2) (by simp; omega) (by simp; omega)
        (by simp; omega) (by simp; omega)
        (by rw [heuristic] at hh ⊢; simp at hh ⊢; omega)
      refine ReachIn.step hp ?_ (Or.inl hwu)
      rcases u with ⟨x, y⟩
      exact mem_nb_up x y
    · rcases lt_trichotomy start.2 u.2 with hd | hd | hd
      · have hp := ih (u.1, u.2 - 1) (by simp; omega) (by simp; omega)
          (by simp; omega) (by simp; omega)
          (by rw [heuristic] at hh ⊢; simp at hh ⊢; omega)
        refine ReachIn.step hp ?_ (Or.inl hwu)
        rcases u with ⟨x, y⟩
        exact mem_nb_left x y
      · exfalso
        rw [heuristic] at hh
        omega
      · have hp := ih (u.1, u.2 + 1) (by simp; omega) (by simp; omega)
          (by simp; omega) (by simp; omega)
          (by rw [heuristic] at hh ⊢; simp at hh ⊢; omega)
        refine ReachIn.step hp ?_ (Or.inl hwu)
        rcases u with ⟨x, y⟩
        exact mem_nb_right x y
    · have hp := ih (u.1 + 1, u.2) (by simp; omega) (by simp; omega)
        (by simp; omega) (by simp; omega)
        (by rw [heuristic] at hh ⊢; simp at hh ⊢; omega)
      refine ReachIn.step hp ?_ (Or.inl hwu)
      rcases u with ⟨x, y⟩
      exact mem_nb_down x y

theorem fullWalk_dist (rows cols : Int) (start goal : Pos)
    (hs1 : 0 ≤ start.1) (hs2 : start.1 < rows) (hs3 : 0 ≤ start.2)
    (hs4 : start.2 < cols)
    (hg1 : 0 ≤ goal.1) (hg2 : goal.1 < rows) (hg3 : 0 ≤ goal.2)
    (hg4 : goal.2 < cols) :
    Reachable (fullWalk rows cols) start goal ∧
      distTo (fullWalk rows cols) start goal goal = heuristic start goal := by
  have hreach := fullWalk_reach rows cols start goal hs1 hs2 hs3 hs4
    (heuristic start goal) goal hg1 hg2 hg3 hg4 rfl
  refine ⟨⟨heuristic start goal, hreach⟩, ?_⟩
  apply Nat.le_antisymm
  · exact distTo_le hreach
  · exact heuristic_le_reach (reach_distTo ⟨heuristic start goal, hreach⟩)

/-- C2: `shortest_path` returns `[]` exactly when the goal is unreachable,
the single-cell path when `start = goal`, and on an obstacle-free grid a
path whose cell count is the Manhattan distance plus one. -/
theorem C2_shortest_path_manhattan :
    (∀ (w : WalkMap) (start goal : Pos),
      find_path w start goal = [] ↔ ¬ Reachable w start goal) ∧
    (∀ (w : WalkMap) (s : Pos), find_path w s s = [s]) ∧
    (∀ (rows cols : Int) (start goal : Pos),
      0 ≤ start.1 → start.1 < rows → 0 ≤ start.2 → start.2 < cols →
      0 ≤ goal.1 → goal.1 < rows → 0 ≤ goal.2 → goal.2 < cols →
      (find_path (fullWalk rows cols) start goal).length =
        heuristic start goal + 1) := by
  refine ⟨find_path_empty_iff, ?_, ?_⟩
  · intro w s
    exact (find_path_spec w s s).1 rfl
  · intro rows cols start goal hs1 hs2 hs3 hs4 hg1 hg2 hg3 hg4
    rcases fullWalk_dist rows cols start goal hs1 hs2 hs3 hs4 hg1 hg2 hg3 hg4
      with ⟨hreach, hdist⟩
    rw [find_path_length (fullWalk rows cols) start goal hreach, hdist]

end Warehouse

namespace Warehouse

/-- Repeated solo stepping of one agent (no other agent, so no blocking),
with every walking-pause draw `false` (pause probability forced to zero)
and a fixed pick oracle. -/
noncomputable def runSolo (total_orders : Nat) (pickIx : Nat) :
    Nat → Grid × AgentS → Grid × AgentS
  | 0, s => s
  | n + 1, s => runSolo total_orders pickIx n
      (AgentS.step total_orders s.1 pickIx false s.2)

theorem runSolo_add (total_orders pickIx m n : Nat) (s : Grid × AgentS) :
    runSolo total_orders pickIx (m + n) s =
      runSolo total_orders pickIx n (runSolo total_orders pickIx m s) := by
  induction m generalizing s with
  | zero => rw [runSolo]; rw [Nat.zero_add]
  | succ k ih =>
    have : k + 1 + n = (k + n) + 1 := by omega
    rw [this, runSolo, runSolo, ih]

/-- One walking tick (unblocked, unpaused, path not exhausted), identical in
`to_item` and `to_depot`. -/
theorem step_walk (total_orders : Nat) (g : Grid) (pickIx : Nat) (a : AgentS)
    (hstate : a.state = AState.to_item ∨ a.state = AState.to_depot)
    (hb : a.blocked_ticks_remaining = 0)
    (hidx : a.path_index < a.path.length) :
    AgentS.step total_orders g pickIx false a =
      (g, updateFatigue { a with
        pos := a.path.getD a.path_index (0, 0)
        path_index := a.path_index + 1
        distance := a.distance + 1
        work_time := a.work_time + WALK_TIME }) := by
  rcases hstate with hstate | hstate
  · rw [AgentS.step]
    rw [hstate]
    simp only
    rw [if_neg (by omega), if_neg (by simp), if_pos hidx]
  · rw [AgentS.step]
    rw [hstate]
    simp only
    rw [if_neg (by omega), if_neg (by simp), if_pos hidx]

/-- Walking `k` ticks along the path advances the cursor and the distance
counter by `k` and moves to cell `path_index + k - 1` of the path. -/
theorem walk_phase (total_orders pickIx : Nat) :
    ∀ (k : Nat) (g : Grid) (a : AgentS),
      (a.state = AState.to_item ∨ a.state = AState.to_depot) →
      a.blocked_ticks_remaining = 0 →
      a.path_index + k ≤ a.path.length →
      ∃ a2, runSolo total_orders pickIx k (g, a) = (g, a2) ∧
        a2.state = a.state ∧ a2.path = a.path ∧
        a2.path_index = a.path_index + k ∧
        a2.distance = a.distance + k ∧
        a2.blocked_ticks_remaining = 0 ∧
        a2.target = a.target ∧
        a2.orders_completed = a.orders_completed ∧
        a2.pickup_ticks_remaining = a.pickup_ticks_remaining ∧
        a2.pos = (if k = 0 then a.pos
          else a.path.getD (a.path_index + k - 1) (0, 0)) := by
  intro k
  induction k with
  | zero =>
    intro g a hstate hb hlen
    refine ⟨a, by rw [runSolo], rfl, rfl, rfl, rfl, hb, rfl, rfl, rfl, by simp⟩
  | succ k ih =>
    intro g a hstate hb hlen
    have hidx : a.path_index < a.path.length := by omega
    have hstep := step_walk total_orders g pickIx a hstate hb hidx
    rw [runSolo, hstep]
    have hstate1 : (updateFatigue { a with
        pos := a.path.getD a.path_index (0, 0)
        path_index := a.path_index + 1
        distance := a.distance + 1
        work_time := a.work_time + WALK_TIME }).state = a.state := rfl
    rcases ih g (updateFatigue { a with
        pos := a.path.getD a.path_index (0, 0)
        path_index := a.path_index + 1
        distance := a.distance + 1
        work_time := a.work_time + WALK_TIME })
      (by rw [hstate1]; exact hstate) hb
      (by show a.path_index + 1 + k ≤ a.path.length; omega) with
      ⟨a2, hrun, h1, h2, h3, h4, h5, h6, h7, h8, h9⟩
    have h3' : a2.path_index = a.path_index + 1 + k := h3
    have h4' : a2.distance = a.distance + 1 + k := h4
    refine ⟨a2, hrun, by rw [h1]; rfl, h2, by omega, by omega,
      h5, h6, h7, h8, ?_⟩
    rw [h9]
    by_cases hk : k = 0
    · rw [if_pos hk, if_neg (by omega)]
      simp only [updateFatigue]
      have : a.path_index + (k + 1) - 1 = a.path_index := by omega
      rw [this]
    · rw [if_neg hk, if_neg (by omega)]
      simp only [updateFatigue]
      have : a.path_index + 1 + k - 1 = a.path_index + (k + 1) - 1 := by omega
      rw [this]

end Warehouse

namespace Warehouse

/-- A waiting agent with items available picks its target and plans. -/
theorem step_waiting (total_orders : Nat) (g : Grid) (pickIx : Nat)
    (pauseRoll : Bool) (a : AgentS)
    (hstate : a.state = AState.waiting)
    (hitems : g.get_all_item_positions ≠ []) :
    AgentS.step total_orders g pickIx pauseRoll a =
      (g, plan_path_to_item g { a with target := some (List.getD
          g.get_all_item_positions
          (pickIx % g.get_all_item_positions.length) (0, 0)) }) := by
  have hp : pick_next_item g pickIx =
      some (g.get_all_item_positions.getD
        (pickIx % g.get_all_item_positions.length) (0, 0)) := by
    rw [pick_next_item]
    rw [if_neg (by simpa using hitems)]
  rw [AgentS.step]
  rw [hstate]
  simp only [hp]

/-- An unblocked walking agent whose path is exhausted arrives: in
`to_item` it starts picking up. -/
theorem step_arrive_item (total_orders : Nat) (g : Grid) (pickIx : Nat)
    (a : AgentS)
    (hstate : a.state = AState.to_item)
    (hb : a.blocked_ticks_remaining = 0)
    (hidx : ¬ a.path_index < a.path.length) :
    AgentS.step total_orders g pickIx false a =
      (g, { a with
        pickup_ticks_remaining := adjustedPickupTicks a
        state := AState.picking_up }) := by
  rw [AgentS.step]
  rw [hstate]
  simp only
  rw [if_neg (by omega), if_neg (by simp), if_neg hidx]

/-- A picking-up tick that does not finish the dwell. -/
theorem step_pickup_cont (total_orders : Nat) (g : Grid) (pickIx : Nat)
    (pauseRoll : Bool) (a : AgentS)
    (hstate : a.state = AState.picking_up)
    (hc : ¬ a.pickup_ticks_remaining - 1 ≤ 0) :
    AgentS.step total_orders g pickIx pauseRoll a =
      (g, updateFatigue { a with
        pickup_ticks_remaining := a.pickup_ticks_remaining - 1
        work_time := a.work_time + PICKUP_BASE_TIME }) := by
  rw [AgentS.step]
  rw [hstate]
  simp only
  have hcond : ¬ ((updateFatigue { a with
      state := AState.picking_up
      pickup_ticks_remaining := a.pickup_ticks_remaining - 1
      work_time := a.work_time + PICKUP_BASE_TIME
    }).pickup_ticks_remaining ≤ 0) := hc
  rw [if_neg hcond]

/-- The final picking-up tick: remove the item, bump the order count and
plan the return leg to the depot. -/
theorem step_pickup_done (total_orders : Nat) (g : Grid) (pickIx : Nat)
    (pauseRoll : Bool) (a : AgentS)
    (hstate : a.state = AState.picking_up)
    (hc : a.pickup_ticks_remaining - 1 ≤ 0) :
    AgentS.step total_orders g pickIx pauseRoll a =
      (g.remove_item (a.target.getD (0, 0)),
        plan_path_to_depot (g.remove_item (a.target.getD (0, 0)))
          { updateFatigue { a with
              pickup_ticks_remaining := a.pickup_ticks_remaining - 1
              work_time := a.work_time + PICKUP_BASE_TIME } with
            orders_completed := a.orders_completed + 1 }) := by
  rw [AgentS.step]
  rw [hstate]
  simp only
  have hcond : (updateFatigue { a with
      state := AState.picking_up
      pickup_ticks_remaining := a.pickup_ticks_remaining - 1
      work_time := a.work_time + PICKUP_BASE_TIME
    }).pickup_ticks_remaining ≤ 0 := hc
  rw [if_pos hcond]
  rfl

/-- An unblocked returning agent whose path is exhausted starts resting. -/
theorem step_arrive_depot (total_orders : Nat) (g : Grid) (pickIx : Nat)
    (a : AgentS)
    (hstate : a.state = AState.to_depot)
    (hb : a.blocked_ticks_remaining = 0)
    (hidx : ¬ a.path_index < a.path.length) :
    AgentS.step total_orders g pickIx false a =
      (g, { a with state := AState.resting }) := by
  rw [AgentS.step]
  rw [hstate]
  simp only
  rw [if_neg (by omega), if_neg (by simp), if_neg hidx]

/-- A resting agent that has met the order quota finishes. -/
theorem step_resting_done (total_orders : Nat) (g : Grid) (pickIx : Nat)
    (pauseRoll : Bool) (a : AgentS)
    (hstate : a.state = AState.resting)
    (horders : a.orders_completed ≥ total_orders) :
    AgentS.step total_orders g pickIx pauseRoll a =
      (g, { updateFatigue { a with rest_time := a.rest_time + DROPOFF_TIME }
        with state := AState.all_done }) := by
  rw [AgentS.step]
  rw [hstate]
  simp only
  have hcond : (updateFatigue { a with
      state := AState.resting
      rest_time := a.rest_time + DROPOFF_TIME
    }).orders_completed ≥ total_orders := horders
  rw [if_pos hcond]

end Warehouse

namespace Warehouse

/-- The whole picking-up dwell: from a counter of `n + 1` it takes exactly
`n + 1` ticks, then the item is removed, the order counted and the return
leg planned; position and distance are untouched. -/
theorem pickup_phase (total_orders pickIx : Nat) :
    ∀ (n : Nat) (g : Grid) (a : AgentS),
      a.state = AState.picking_up →
      a.pickup_ticks_remaining = (n : Int) + 1 →
      ∃ a2, runSolo total_orders pickIx (n + 1) (g, a) =
        (g.remove_item (a.target.getD (0, 0)), a2) ∧
        a2.state = AState.to_depot ∧
        a2.path = find_path (g.remove_item (a.target.getD (0, 0))).toWalkMap
          a.pos (g.remove_item (a.target.getD (0, 0))).depot ∧
        a2.path_index = 0 ∧ a2.pos = a.pos ∧ a2.distance = a.distance ∧
        a2.target = a.target ∧
        a2.orders_completed = a.orders_completed + 1 ∧
        a2.blocked_ticks_remaining = a.blocked_ticks_remaining := by
  intro n
  induction n with
  | zero =>
    intro g a hstate hcount
    have hstep := step_pickup_done total_orders g pickIx false a hstate
      (by rw [hcount]; omega)
    rw [runSolo, hstep, runSolo]
    exact ⟨_, rfl, rfl, rfl, rfl, rfl, rfl, rfl, rfl, rfl⟩
  | succ n ih =>
    intro g a hstate hcount
    have hstep := step_pickup_cont total_orders g pickIx false a hstate
      (by rw [hcount]; push_cast; omega)
    have hrw : (n : Nat) + 1 + 1 = (n + 1) + 1 := rfl
    rw [runSolo, hstep]
    have hs1 : (updateFatigue { a with
        pickup_ticks_remaining := a.pickup_ticks_remaining - 1
        work_time := a.work_time + PICKUP_BASE_TIME }).state =
        AState.picking_up := hstate
    have hc1 : (updateFatigue { a with
        pickup_ticks_remaining := a.pickup_ticks_remaining - 1
        work_time := a.work_time + PICKUP_BASE_TIME
      }).pickup_ticks_remaining = (n : Int) + 1 := by
      show a.pickup_ticks_remaining - 1 = (n : Int) + 1
      rw [hcount]; push_cast; omega
    rcases ih g (updateFatigue { a with
        pickup_ticks_remaining := a.pickup_ticks_remaining - 1
        work_time := a.work_time + PICKUP_BASE_TIME }) hs1 hc1 with
      ⟨a2, hrun, h1, h2, h3, h4, h5, h6, h7, h8⟩
    exact ⟨a2, hrun, h1, h2, h3, h4, h5, h6, h7, h8⟩

end Warehouse

namespace Warehouse

theorem walkMap_ext (w1 w2 : WalkMap) (hr : w1.rows = w2.rows)
    (hc : w1.cols = w2.cols) (hw : w1.walkable = w2.walkable) : w1 = w2 := by
  obtain ⟨r1, c1, k1, b1⟩ := w1
  obtain ⟨r2, c2, k2, b2⟩ := w2
  cases hr
  cases hc
  cases hw
  rfl

theorem remove_item_rows (g : Grid) (p : Pos) :
    (g.remove_item p).rows = g.rows := by
  rw [Grid.remove_item]
  by_cases h : g.cells p = Cell.ITEM
  · rw [if_pos h]
  · rw [if_neg h]

theorem remove_item_cols (g : Grid) (p : Pos) :
    (g.remove_item p).cols = g.cols := by
  rw [Grid.remove_item]
  by_cases h : g.cells p = Cell.ITEM
  · rw [if_pos h]
  · rw [if_neg h]

theorem remove_item_depot (g : Grid) (p : Pos) :
    (g.remove_item p).depot = g.depot := by
  rw [Grid.remove_item]
  by_cases h : g.cells p = Cell.ITEM
  · rw [if_pos h]; rfl
  · rw [if_neg h]

/-- Removing an item never changes walkability: the cell goes from ITEM to
SHELF, both unwalkable. -/
theorem remove_item_is_walkable (g : Grid) (p q : Pos) :
    (g.remove_item p).is_walkable q = g.is_walkable q := by
  rw [Grid.remove_item]
  by_cases h : g.cells p = Cell.ITEM
  · rw [if_pos h]
    rw [Grid.is_walkable, Grid.is_walkable]
    simp only
    by_cases hq : q = p
    · subst hq
      simp [h]
    · simp [hq]
  · rw [if_neg h]

theorem remove_item_toWalkMap (g : Grid) (p : Pos) :
    (g.remove_item p).toWalkMap = g.toWalkMap := by
  refine walkMap_ext _ _ (remove_item_rows g p) (remove_item_cols g p) ?_
  funext q
  exact remove_item_is_walkable g p q

/-- The fold of `find_path_to_neighbour` returns its seed or one of the
candidate paths. -/
theorem foldl_keepShorter_mem (ps : List (List Pos)) (b : List Pos) :
    ps.foldl keepShorter b = b ∨ ps.foldl keepShorter b ∈ ps := by
  induction ps generalizing b with
  | nil => left; rfl
  | cons p t ih =>
    rw [List.foldl_cons]
    rcases ih (keepShorter b p) with h | h
    · rw [h, keepShorter]
      by_cases hc : p ≠ [] ∧ (b = [] ∨ p.length < b.length)
      · rw [if_pos hc]; right; exact List.mem_cons_self _ _
      · rw [if_neg hc]; left; rfl
    · right; exact List.mem_cons_of_mem _ h

/-- `find_path_to_neighbour` is empty or is the `find_path` result for one
of the walkable cells adjacent to the goal. -/
theorem find_path_to_neighbour_cases (w : WalkMap) (start goal : Pos) :
    find_path_to_neighbour w start goal = [] ∨
    ∃ n, n ∈ (neighboursOf goal).filter (fun n => w.walkable n) ∧
      find_path_to_neighbour w start goal = find_path w start n := by
  rw [find_path_to_neighbour_eq_fold]
  rcases foldl_keepShorter_mem
    (((neighboursOf goal).filter (fun n => w.walkable n)).map
      (find_path w start)) [] with h | h
  · left; exact h
  · right
    rcases List.mem_map.mp h with ⟨n, hn, he⟩
    exact ⟨n, hn, he.symm⟩

/-- A non-empty `find_path_to_neighbour` result begins at the start cell. -/
theorem find_path_to_neighbour_head (w : WalkMap) (start goal : Pos)
    (h : find_path_to_neighbour w start goal ≠ []) :
    (find_path_to_neighbour w start goal).head? = some start := by
  rcases find_path_to_neighbour_cases w start goal with he | ⟨n, _, he⟩
  · exact absurd he h
  · rw [he]
    exact find_path_head w start n (by rw [← he]; exact h)

end Warehouse

namespace Warehouse

/-- C9: every non-empty planned route (to the cell adjacent to a target
item, or back to the depot) starts at the agent's own position, the first
unblocked unpaused walking tick moves the agent onto the cell it already
occupies while still incrementing the distance counter and adding the walk
cost to work_time, and walking a whole planned path accumulates exactly
the path's cell count of distance (not its step count). -/
theorem C9_planned_path_starts_at_agent :
    (∀ (g : Grid) (a : AgentS), (plan_path_to_item g a).path ≠ [] →
      (plan_path_to_item g a).path.head? = some a.pos) ∧
    (∀ (g : Grid) (a : AgentS), (plan_path_to_depot g a).path ≠ [] →
      (plan_path_to_depot g a).path.head? = some a.pos) ∧
    (∀ (total_orders : Nat) (g : Grid) (pickIx : Nat) (a : AgentS),
      (a.state = AState.to_item ∨ a.state = AState.to_depot) →
      a.blocked_ticks_remaining = 0 → a.path_index = 0 → a.path ≠ [] →
      ((AgentS.step total_orders g pickIx false a).2.distance =
          a.distance + 1 ∧
        (AgentS.step total_orders g pickIx false a).2.work_time =
          a.work_time + WALK_TIME ∧
        (a.path.head? = some a.pos →
          (AgentS.step total_orders g pickIx false a).2.pos = a.pos))) ∧
    (∀ (total_orders pickIx : Nat) (g : Grid) (a : AgentS),
      (a.state = AState.to_item ∨ a.state = AState.to_depot) →
      a.blocked_ticks_remaining = 0 → a.path_index = 0 →
      ∃ a2, runSolo total_orders pickIx a.path.length (g, a) = (g, a2) ∧
        a2.distance = a.distance + a.path.length) := by
  refine ⟨?_, ?_, ?_, ?_⟩
  · intro g a h
    exact find_path_to_neighbour_head _ _ _ h
  · intro g a h
    exact find_path_head _ _ _ h
  · intro total_orders g pickIx a hstate hb hpi hne
    have hidx : a.path_index < a.path.length := by
      rw [hpi]; exact List.length_pos.mpr hne
    rw [step_walk total_orders g pickIx a hstate hb hidx]
    refine ⟨rfl, rfl, ?_⟩
    intro hhead
    show a.path.getD a.path_index (0, 0) = a.pos
    rw [hpi]
    cases hpath : a.path with
    | nil => exact absurd hpath hne
    | cons h0 t =>
      rw [hpath] at hhead
      simp only [List.head?] at hhead
      simpa using hhead
  · intro total_orders pickIx g a hstate hb hpi
    rcases walk_phase total_orders pickIx a.path.length g a hstate hb
      (by omega) with ⟨a2, hrun, _, _, _, h4, _⟩
    exact ⟨a2, hrun, h4⟩

end Warehouse

namespace Warehouse

/-- The default 15 x 17 grid of `main.run_headless` (all layout arguments
left at their defaults). -/
def g15 : Grid :=
  match mkGrid 15 17 2 3 none none none none with
  | Except.ok g => g
  | Except.error _ =>
    { rows := 0, cols := 0, shelf_width := 0, aisle_width := 0,
      centre_aisle_width := 0, depot_row := 0, depot_col := 0,
      shelf_start_row := 0, shelf_end_row := 0, shelf_cols := [],
      cells := fun _ => Cell.EMPTY }

theorem mkGrid_default : mkGrid 15 17 2 3 none none none none =
    Except.ok g15 := rfl

theorem g15_depot : g15.depot = (0, 8) := by decide

theorem g15_depot_walkable : g15.toWalkMap.walkable g15.depot = true := by
  decide

theorem g15_items_ne : g15.get_all_item_positions ≠ [] := by decide

end Warehouse

namespace Warehouse

theorem runSolo_one (total_orders pickIx : Nat) (s : Grid × AgentS) :
    runSolo total_orders pickIx 1 s =
      AgentS.step total_orders s.1 pickIx false s.2 := rfl

theorem getD_last (l : List Pos) (d : Pos) (h : l ≠ []) :
    l.getD (l.length - 1) d = l.getLast?.getD d := by
  induction l with
  | nil => exact absurd rfl h
  | cons x t ih =>
    cases t with
    | nil => rfl
    | cons y u =>
      have hlen : (x :: y :: u).length - 1 = ((y :: u).length - 1) + 1 := by
        simp [List.length]
      rw [hlen]
      show (y :: u).getD ((y :: u).length - 1) d = _
      rw [ih (by simp)]
      rw [List.getLast?_cons_cons]

end Warehouse

namespace Warehouse

/-- A full solo trip under an order quota of 1: plan, walk out, dwell,
walk back, rest, finish — accumulating exactly twice the outbound path's
cell count of distance (the return leg has the same length by symmetry of
the shortest-path metric). -/
theorem solo_trip (g : Grid) (pickIx : Nat)
    (hdw : g.toWalkMap.walkable g.depot = true)
    (hitems : g.get_all_item_positions ≠ [])
    (hp1 : find_path_to_neighbour g.toWalkMap g.depot
      (List.getD g.get_all_item_positions
        (pickIx % g.get_all_item_positions.length) (0, 0)) ≠ []) :
    ∃ (T : Nat) (g2 : Grid) (a2 : AgentS),
      runSolo 1 pickIx T (g, mkAgent g 1) = (g2, a2) ∧
      a2.state = AState.all_done ∧
      a2.distance = 2 * (find_path_to_neighbour g.toWalkMap g.depot
        (List.getD g.get_all_item_positions
          (pickIx % g.get_all_item_positions.length) (0, 0))).length := by
  generalize htgt : List.getD g.get_all_item_positions
    (pickIx % g.get_all_item_positions.length) (0, 0) = tgt
  rw [htgt] at hp1
  rcases find_path_to_neighbour_cases g.toWalkMap g.depot tgt with
    hcase | ⟨nb, hnbmem, hp1eq⟩
  · exact absurd hcase hp1
  have hwnb : g.toWalkMap.walkable nb = true := (List.mem_filter.mp hnbmem).2
  have hne1 : find_path g.toWalkMap g.depot nb ≠ [] := by
    rw [← hp1eq]; exact hp1
  have hreach : Reachable g.toWalkMap g.depot nb := by
    by_contra hnr
    exact hne1 ((find_path_empty_iff _ _ _).mpr hnr)
  have hlen1 : (find_path_to_neighbour g.toWalkMap g.depot tgt).length =
      distTo g.toWalkMap g.depot nb nb + 1 := by
    rw [hp1eq]; exact find_path_length _ _ _ hreach
  have hsymm := distTo_symm hdw hwnb hreach
  have hlen2 : (find_path g.toWalkMap nb g.depot).length =
      (find_path_to_neighbour g.toWalkMap g.depot tgt).length := by
    rw [hlen1, find_path_length _ _ _ hsymm.1, hsymm.2]
  have hlast1 : (find_path_to_neighbour g.toWalkMap g.depot tgt).getLast? =
      some nb := by
    rw [hp1eq]; exact find_path_last _ _ _ hne1
  -- stage 1: the waiting tick picks the target and plans the outbound leg
  have stage1 : ∃ a1, runSolo 1 pickIx 1 (g, mkAgent g 1) = (g, a1) ∧
      a1.state = AState.to_item ∧
      a1.path = find_path_to_neighbour g.toWalkMap g.depot tgt ∧
      a1.path_index = 0 ∧ a1.pos = g.depot ∧ a1.distance = 0 ∧
      a1.blocked_ticks_remaining = 0 ∧ a1.target = some tgt ∧
      a1.orders_completed = 0 := by
    refine ⟨plan_path_to_item g { mkAgent g 1 with target := some tgt },
      ?_, rfl, rfl, rfl, rfl, rfl, rfl, rfl, rfl⟩
    rw [runSolo_one]
    rw [step_waiting 1 g pickIx false (mkAgent g 1) rfl hitems]
    rw [htgt]
  rcases stage1 with ⟨a1, hr1, hs1, hpath1, hpi1, hpos1, hd1, hb1, htg1, ho1⟩
  -- stage 2: walk the outbound leg
  rcases walk_phase 1 pickIx a1.path.length g a1 (Or.inl hs1) hb1 (by omega)
    with ⟨a2, hr2, hs2, hpath2, hpi2, hd2, hb2, htg2, ho2, hpk2, hpos2⟩
  have hlp : a1.path.length ≠ 0 := by
    rw [hpath1]
    exact fun h0 => hp1 (List.length_eq_zero.mp h0)
  have hne1' : a1.path ≠ [] := by rw [hpath1]; exact hp1
  rw [if_neg hlp, hpi1, Nat.zero_add] at hpos2
  have hpos2' : a2.pos = nb := by
    rw [hpos2, getD_last _ _ hne1', hpath1, hlast1]
    rfl
  have htg2' : a2.target = some tgt := htg2.trans htg1
  -- stage 3: arrival at the adjacent cell, start picking up
  have e3 := step_arrive_item 1 g pickIx a2 (hs2.trans hs1)
    (by rw [hb2]) (by rw [hpath2]; omega)
  have stage3 : runSolo 1 pickIx 1 (g, a2) =
      (g, { a2 with
            pickup_ticks_remaining := adjustedPickupTicks a2
            state := AState.picking_up }) := by
    rw [runSolo_one]; exact e3
  -- stage 4: the pickup dwell
  have hadj : 1 ≤ adjustedPickupTicks a2 := le_max_left _ _
  rcases pickup_phase 1 pickIx ((adjustedPickupTicks a2).toNat - 1) g
      { a2 with
            pickup_ticks_remaining := adjustedPickupTicks a2
            state := AState.picking_up }
      rfl (by show adjustedPickupTicks a2 = _; omega) with
    ⟨a4, hr4, hs4, hpath4, hpi4, hpos4, hd4, htg4, ho4, hb4⟩
  have hr4' : runSolo 1 pickIx ((adjustedPickupTicks a2).toNat - 1 + 1)
      (g, { a2 with
            pickup_ticks_remaining := adjustedPickupTicks a2
            state := AState.picking_up }) =
      (g.remove_item (a2.target.getD (0, 0)), a4) := hr4
  rw [htg2'] at hr4'
  have hpath4' : a4.path =
      find_path (g.remove_item (a2.target.getD (0, 0))).toWalkMap a2.pos
        (g.remove_item (a2.target.getD (0, 0))).depot := hpath4
  rw [htg2'] at hpath4'
  have hpos4' : a4.pos = a2.pos := hpos4
  have hd4' : a4.distance = a2.distance := hd4
  have ho4' : a4.orders_completed = a2.orders_completed + 1 := ho4
  have hb4' : a4.blocked_ticks_remaining = 0 := by
    have : a4.blocked_ticks_remaining = a2.blocked_ticks_remaining := hb4
    rw [this, hb2]
  have hpath4'' : a4.path = find_path g.toWalkMap nb g.depot := by
    rw [hpath4']
    simp only [Option.getD_some]
    rw [remove_item_toWalkMap, remove_item_depot, hpos2']
  have hlenp2 : a4.path.length =
      (find_path_to_neighbour g.toWalkMap g.depot tgt).length := by
    rw [hpath4'']; exact hlen2
  have hr4'' : runSolo 1 pickIx ((adjustedPickupTicks a2).toNat - 1 + 1)
      (g, { a2 with
            pickup_ticks_remaining := adjustedPickupTicks a2
            state := AState.picking_up }) = (g.remove_item tgt, a4) := by
    rw [htg2', hr4']
    simp only [Option.getD_some]
  -- stage 5: walk the return leg
  rcases walk_phase 1 pickIx a4.path.length (g.remove_item tgt) a4
    (Or.inr hs4) hb4' (by omega) with
    ⟨a5, hr5, hs5, hpath5, hpi5, hd5, hb5, htg5, ho5, hpk5, hpos5⟩
  -- stage 6: arrival at the depot, start resting
  have e6 := step_arrive_depot 1 (g.remove_item tgt) pickIx a5
    (hs5.trans hs4) hb5 (by rw [hpath5]; omega)
  have stage6 : runSolo 1 pickIx 1 (g.remove_item tgt, a5) =
      (g.remove_item tgt, { a5 with state := AState.resting }) := by
    rw [runSolo_one]; exact e6
  -- stage 7: the resting tick meets the quota of 1 and finishes
  have ho5' : a5.orders_completed = 1 := by
    have h1 : a5.orders_completed = a4.orders_completed := ho5
    have h2 : a2.orders_completed = a1.orders_completed := ho2
    omega
  have e7 := step_resting_done 1 (g.remove_item tgt) pickIx false
    { a5 with state := AState.resting } rfl
    (by show a5.orders_completed ≥ 1; omega)
  have stage7 : runSolo 1 pickIx 1
      (g.remove_item tgt, { a5 with state := AState.resting }) =
      (g.remove_item tgt,
        { updateFatigue { { a5 with state := AState.resting } with
            rest_time := ({ a5 with state := AState.resting }).rest_time +
              DROPOFF_TIME } with
          state := AState.all_done }) := by
    rw [runSolo_one]; exact e7
  -- compose the seven stages
  have R2 : runSolo 1 pickIx (1 + a1.path.length) (g, mkAgent g 1) =
      (g, a2) := by
    rw [runSolo_add, hr1, hr2]
  have R3 : runSolo 1 pickIx (1 + a1.path.length + 1) (g, mkAgent g 1) =
      (g, { a2 with
            pickup_ticks_remaining := adjustedPickupTicks a2
            state := AState.picking_up }) := by
    rw [runSolo_add, R2]; exact stage3
  have R4 : runSolo 1 pickIx (1 + a1.path.length + 1 +
      ((adjustedPickupTicks a2).toNat - 1 + 1)) (g, mkAgent g 1) =
      (g.remove_item tgt, a4) := by
    rw [runSolo_add, R3]; exact hr4''
  have R5 : runSolo 1 pickIx (1 + a1.path.length + 1 +
      ((adjustedPickupTicks a2).toNat - 1 + 1) + a4.path.length)
      (g, mkAgent g 1) = (g.remove_item tgt, a5) := by
    rw [runSolo_add, R4]; exact hr5
  have R6 : runSolo 1 pickIx (1 + a1.path.length + 1 +
      ((adjustedPickupTicks a2).toNat - 1 + 1) + a4.path.length + 1)
      (g, mkAgent g 1) =
      (g.remove_item tgt, { a5 with state := AState.resting }) := by
    rw [runSolo_add, R5]; exact stage6
  have R7 : runSolo 1 pickIx (1 + a1.path.length + 1 +
      ((adjustedPickupTicks a2).toNat - 1 + 1) + a4.path.length + 1 + 1)
      (g, mkAgent g 1) =
      (g.remove_item tgt,
        { updateFatigue { { a5 with state := AState.resting } with
            rest_time := ({ a5 with state := AState.resting }).rest_time +
              DROPOFF_TIME } with
          state := AState.all_done }) := by
    rw [runSolo_add, R6]; exact stage7
  refine ⟨1 + a1.path.length + 1 +
      ((adjustedPickupTicks a2).toNat - 1 + 1) + a4.path.length + 1 + 1,
    g.remove_item tgt, _, R7, rfl, ?_⟩
  show a5.distance =
    2 * (find_path_to_neighbour g.toWalkMap g.depot tgt).length
  have hl1 : a1.path.length =
      (find_path_to_neighbour g.toWalkMap g.depot tgt).length := by
    rw [hpath1]
  omega

end Warehouse

namespace Warehouse

/-- C4: on the default 15 x 17 grid with depot (0, 8), an order quota of 1,
the walking-pause draws forced to zero and no other agent to block, a solo
agent completes its trip in the all_done state with a distance counter of
exactly twice the length of the shortest adjacent path from the depot to
its target item (whichever item the pick draw selects). -/
theorem C4_trip_distance (pickIx : Nat)
    (hp1 : find_path_to_neighbour g15.toWalkMap g15.depot
      (List.getD g15.get_all_item_positions
        (pickIx % g15.get_all_item_positions.length) (0, 0)) ≠ []) :
    ∃ (T : Nat) (g2 : Grid) (a2 : AgentS),
      runSolo 1 pickIx T (g15, mkAgent g15 1) = (g2, a2) ∧
      a2.state = AState.all_done ∧
      a2.distance = 2 * (find_path_to_neighbour g15.toWalkMap g15.depot
        (List.getD g15.get_all_item_positions
          (pickIx % g15.get_all_item_positions.length) (0, 0))).length :=
  solo_trip g15 pickIx g15_depot_walkable g15_items_ne hp1

set_option maxRecDepth 100000 in
theorem C4_trip_distance_witness :
    (find_path_to_neighbour g15.toWalkMap g15.depot
      (List.getD g15.get_all_item_positions
        (3 % g15.get_all_item_positions.length) (0, 0)) ≠ []) ∧
    (∃ (T : Nat) (g2 : Grid) (a2 : AgentS),
      runSolo 1 3 T (g15, mkAgent g15 1) = (g2, a2) ∧
      a2.state = AState.all_done ∧
      a2.distance = 2 * (find_path_to_neighbour g15.toWalkMap g15.depot
        (List.getD g15.get_all_item_positions
          (3 % g15.get_all_item_positions.length) (0, 0))).length) :=
  ⟨by decide, C4_trip_distance 3 (by decide)⟩

end Warehouse
